import Mathlib

/-!
Verification development for the tree/flowchart client of this repository
(`src/flowchart.js`, which contains the current client followed by an earlier
revision of the same file; `src/unnamed/part_000` and `src/unnamed/part_001`
are two further earlier revisions).

The JavaScript is shallowly embedded: the global mutable maps (`nodeMap`,
`parentMap`, `nodeStats`, `stableRootId`) become an explicit `Store` value that
is threaded through the functions, JS objects with string keys become
insertion-ordered association lists, DOM-read filter values become a `Filters`
record, and the network becomes an explicit oracle parameter.  DOM painting
(HTML strings, icons, scrolling) is abstracted to the sequence of node ids a
render pass emits a card for, in emission order: a node is present in the
rendered tree exactly when its id occurs in that sequence.
-/

namespace Flowchart

/-! ### JS string primitives

`Array.prototype.sort()` with no comparator sorts strings by code units, and
`String.prototype.includes` is substring containment.  Core `String.lt` does
not reduce in the kernel, so the comparison is spelled out on character
lists. -/

/-- Lexicographic comparison of character lists, the order used by the JS
default array sort on strings. -/
def charListLt : List Char → List Char → Bool
  | _, [] => false
  | [], _ :: _ => true
  | a :: as, b :: bs => if a < b then true else if b < a then false else charListLt as bs

/-- JS `a < b` on strings. -/
def strLtJS (a b : String) : Bool := charListLt a.toList b.toList

/-- Insertion step of the stable sort modelling `Array.prototype.sort()`. -/
def insertSorted (x : String) : List String → List String
  | [] => [x]
  | y :: ys => if strLtJS y x then y :: insertSorted x ys else x :: y :: ys

/-- Stable sort of a list of ids, modelling `children.sort()` (ascending by
code units; only the resulting order and membership matter here). -/
def sortJS (l : List String) : List String := l.foldr insertSorted []

/-- Whether `p` is a prefix of `l` (character lists). -/
def isPrefixCL : List Char → List Char → Bool
  | [], _ => true
  | _ :: _, [] => false
  | a :: as, b :: bs => a == b && isPrefixCL as bs

/-- Whether `p` occurs as a contiguous run inside `l` (character lists). -/
def isInfixCL (p : List Char) : List Char → Bool
  | [] => isPrefixCL p []
  | c :: rest => isPrefixCL p (c :: rest) || isInfixCL p rest

/-- JS `hay.includes(pat)`. -/
def jsIncludes (hay pat : String) : Bool := isInfixCL pat.toList hay.toList

/-- JS `s.toLowerCase()` (character-wise lowering; exact on the ASCII ids and
names this client handles). -/
def jsToLower (s : String) : String := String.mk (s.toList.map Char.toLower)

/-- JS `String(k).padStart(2, '0')`, used for friendly ids. -/
def padStart2 (k : Nat) : String :=
  if (toString k).length < 2 then "0" ++ toString k else toString k

/-- JS `a || b` on nullable strings: an absent or empty string falls through
to the alternative. -/
def jsOrS : Option String → Option String → Option String
  | some s, b => if s = "" then b else some s
  | none, b => b

/-- JS truthiness of a nullable string. -/
def jsTruthy : Option String → Bool
  | none => false
  | some s => decide (s ≠ "")

/-! ### JS objects as insertion-ordered association lists

`for (const k in obj)` iterates string keys in insertion order; assigning to an
existing key keeps its position, assigning a fresh key appends it. -/

/-- JS `obj[k] = v`: overwrite in place, or append a fresh key. -/
def jsSet {α : Type} (m : List (String × α)) (k : String) (v : α) : List (String × α) :=
  if m.any (fun p => decide (p.1 = k)) then
    m.map (fun p => if p.1 = k then (k, v) else p)
  else m ++ [(k, v)]

/-- JS `delete obj[k]`. -/
def jsErase {α : Type} (m : List (String × α)) (k : String) : List (String × α) :=
  m.filter (fun p => p.1 != k)

/-! ### Data model -/

/-- Cached IN/OUT click counters for one node (`nodeStats[id]`). -/
structure Stats where
  inboundCount : Nat
  outboundCount : Nat
deriving DecidableEq, Repr

/-- A node of the graph as held in `nodeMap`.  `friendlyId` is `""` until
`assignFriendlyIds` runs (JS reads it through `|| ''`), and `forceVisible`
models the temporary `_forceVisible` property (an absent property reads as
`false`). -/
structure Node where
  contentId : String
  name : String
  description : String
  status : String
  children : List String
  friendlyId : String
  forceVisible : Bool
deriving DecidableEq, Repr

/-- The client-side mirror: the global mutable maps of `flowchart.js`. -/
structure Store where
  nodeMap : List (String × Node)
  parentMap : List (String × String)
  nodeStats : List (String × Stats)
  stableRootId : Option String
deriving DecidableEq, Repr

/-- Current values of the two filter `<select>` elements
(`connection-filter-select`, `status-filter-select`). -/
structure Filters where
  connectionFilter : String
  statusFilter : String
deriving DecidableEq, Repr

/-! ### Visibility filter (`isNodeVisible`, flowchart.js lines 238-257) -/

/-- Connection-filter component of `isNodeVisible`: with no cached stats the
checks are skipped (fail-open); with stats, `inbound`/`outbound` require the
corresponding count to be non-zero. -/
def connOk (f : Filters) : Option Stats → Bool
  | none => true
  | some stats =>
    if f.connectionFilter = "inbound" ∧ stats.inboundCount = 0 then false
    else if f.connectionFilter = "outbound" ∧ stats.outboundCount = 0 then false
    else true

/-- Status-filter component of `isNodeVisible`: exact match unless `all`. -/
def statusOk (f : Filters) (node : Node) : Bool :=
  decide (f.statusFilter = "all" ∨ node.status = f.statusFilter)

/-- `isNodeVisible(nodeId)`: missing node is invisible; a `_forceVisible` node
is visible unconditionally; otherwise the connection and status criteria are
ANDed (each early-returns `false` in the JS). -/
def isNodeVisible (s : Store) (f : Filters) (nodeId : String) : Bool :=
  match s.nodeMap.lookup nodeId with
  | none => false
  | some node =>
    if node.forceVisible then true
    else connOk f (s.nodeStats.lookup nodeId) && statusOk f node

/-! ### Renderer (`renderNode`, flowchart.js lines 565-674)

`renderNode` is abstracted to the list of node ids whose card it emits, in
emission order.  The JS `renderedNodes` set always receives exactly the ids
that get a card, so the visited set after a call is the emitted ids prepended
to the visited set before it; `renderListF` threads it that way.  The
recursion, which in JS terminates because `renderedNodes` only grows, is given
fuel; the driver supplies `nodeMap.length + 1`, which is proven never to run
out (`renderNodeF` at any reachable call has positive fuel). -/

/-- Renders a children list left to right, threading the visited set (the
visited set after a `renderNode` call is its emissions prepended to the
visited set before it). -/
def renderListF (rn : List String → String → List String) :
    List String → List String → List String
  | _, [] => []
  | visited, c :: rest =>
    rn visited c ++ renderListF rn ((rn visited c).reverse ++ visited) rest

/-- One `renderNode(nodeId, nodeMap, level)` call: skip missing nodes, skip
nodes that fail the filter and are not force-visible, skip already-rendered
nodes; otherwise emit the card and recurse into the sorted copy of the
children (suppressed at level 0 in single-node mode). -/
def renderNodeF (s : Store) (f : Filters) (single : Bool) :
    Nat → List String → String → Nat → List String
  | 0, _, _, _ => []
  | fuel + 1, visited, nodeId, level =>
    match s.nodeMap.lookup nodeId with
    | none => []
    | some node =>
      if node.forceVisible = false ∧ isNodeVisible s f nodeId = false then []
      else if nodeId ∈ visited then []
      else
        nodeId ::
          (if sortJS node.children ≠ [] ∧ ¬(single = true ∧ level = 0) then
            renderListF (fun v c => renderNodeF s f single fuel v c (level + 1))
              (nodeId :: visited) (sortJS node.children)
          else [])

/-- A full render pass: `renderedNodes.clear()` then `renderNode(root, nodeMap, 0)`. -/
def renderPass (s : Store) (f : Filters) (single : Bool) (rootId : String) : List String :=
  renderNodeF s f single (s.nodeMap.length + 1) [] rootId 0

/-! ### Ancestor pre-pass (`loadAndRenderVisuals`, flowchart.js lines 509-518) -/

/-- A node with its force-visible flag set. -/
def setFlagTrue (n : Node) : Node := { n with forceVisible := true }

/-- Sets `_forceVisible` on one node (`nodeMap[parentId]._forceVisible = true`). -/
def setForceVisible (s : Store) (id : String) : Store :=
  { s with nodeMap :=
      s.nodeMap.map fun p =>
        if p.1 = id then (p.1, setFlagTrue p.2) else p }

/-- The `markParentsVisible` walk: follow `parentMap` upward, flagging each
resolving parent.  The JS loop has no guard and would run forever on a cyclic
parent map; the fuel supplied by the driver (`parentMap.length + 1`) is enough
for every terminating walk, since a terminating walk visits distinct parent-map
keys. -/
def markParentsVisible : Nat → Store → String → Store
  | 0, s, _ => s
  | fuel + 1, s, currentId =>
    match s.parentMap.lookup currentId with
    | none => s
    | some parentId =>
      if parentId = "" then s
      else
        match s.nodeMap.lookup parentId with
        | none => s
        | some _ => markParentsVisible fuel (setForceVisible s parentId) parentId

/-- The pre-render pass: for every node id (insertion order), if it is visible
under the current store state, mark all its ancestors force-visible. -/
def markAllParentsVisible (f : Filters) (fuel : Nat) (s : Store) : Store :=
  (s.nodeMap.map Prod.fst).foldl
    (fun acc id => if isNodeVisible acc f id then markParentsVisible fuel acc id else acc) s

/-- End-of-pass cleanup: `delete nodeMap[id]._forceVisible` for every id. -/
def clearForceVisible (s : Store) : Store :=
  { s with nodeMap := s.nodeMap.map fun p => (p.1, { p.2 with forceVisible := false }) }

/-- Result of `loadAndRenderVisuals`: either the early return taken when no
root resolves (possibly requesting a full reload), or a completed pass with
the final store and the emitted ids. -/
inductive VisualsResult where
  | earlyReturn (store : Store) (reloadRequested : Bool)
  | rendered (store : Store) (emitted : List String)
deriving DecidableEq, Repr

/-- The store a `VisualsResult` leaves behind. -/
def visualsStore : VisualsResult → Store
  | .earlyReturn s _ => s
  | .rendered s _ => s

/-- The ids emitted by a `VisualsResult` (none on the early return). -/
def visualsEmitted : VisualsResult → List String
  | .earlyReturn _ _ => []
  | .rendered _ es => es

/-- `loadAndRenderVisuals(rootOverrideId)` (flowchart.js lines 502-561): clear
the visited set, run the ancestor pre-pass, resolve the root
(`rootOverrideId || stableRootId || Object.keys(nodeMap)[0]`), bail out (and
request a reload when a stable root exists) if it does not resolve, refresh
the stats cache from the server (`fetchAllStats`, modelled by the
`freshStats` parameter), render, and finally delete all `_forceVisible`
flags. -/
def loadAndRenderVisuals (s : Store) (f : Filters) (single : Bool)
    (freshStats : List (String × Stats)) (rootOverrideId : Option String) : VisualsResult :=
  let s1 := markAllParentsVisible f (s.parentMap.length + 1) s
  match jsOrS rootOverrideId (jsOrS s1.stableRootId (jsOrS ((s1.nodeMap.map Prod.fst).head?) none)) with
  | none => .earlyReturn s1 (jsTruthy s1.stableRootId)
  | some rootNodeId =>
    match s1.nodeMap.lookup rootNodeId with
    | none => .earlyReturn s1 (jsTruthy s1.stableRootId)
    | some _ =>
      let s2 := { s1 with nodeStats := freshStats }
      .rendered (clearForceVisible s2) (renderPass s2 f single rootNodeId)

/-! ### Full-tree ingest (`loadAndRenderTree`, flowchart.js lines 677-745) -/

/-- First scan: `response.forEach(node => { nodeMap[node.contentId] = {...node} })`. -/
def buildNodeMap (response : List Node) : List (String × Node) :=
  response.foldl (fun m n => jsSet m n.contentId n) []

/-- Second scan (lines 693-700): for each node in response order, for each of
its child ids, record the node as the child's parent — provided the child id
is truthy and resolves in the node map — overwriting any earlier writer. -/
def buildParentMap (response : List Node) (nm : List (String × Node)) : List (String × String) :=
  response.foldl
    (fun pm n =>
      n.children.foldl
        (fun pm childId =>
          if childId ≠ "" ∧ (nm.lookup childId).isSome = true then jsSet pm childId n.contentId
          else pm)
        pm)
    []

/-- A node with its friendly id replaced. -/
def setFriendly (node : Node) (fid : String) : Node := { node with friendlyId := fid }

/-- One step of the `assignFriendlyIds` walk: if the response entry resolves
in the map, stamp it with the zero-padded counter and increment the counter
(entries that do not resolve are filtered out and consume no counter value). -/
def assignStep (acc : List (String × Node) × Nat) (n : Node) : List (String × Node) × Nat :=
  match acc.1.lookup n.contentId with
  | none => acc
  | some node => (jsSet acc.1 n.contentId (setFriendly node (padStart2 acc.2)), acc.2 + 1)

/-- `assignFriendlyIds(response)` (lines 748-758): walk the response in order,
stamping each resolving node with the 1-based, zero-padded counter value. -/
def assignFriendlyIds (nm : List (String × Node)) (response : List Node) : List (String × Node) :=
  (response.foldl assignStep (nm, 1)).1

/-- Outcome of the store-rebuilding part of `loadAndRenderTree`: the empty
response shows the distinct "No Root Node found" view; a falsy first content
id throws `'No root node found'`, caught by the surrounding handler as the
error view; otherwise the maps are rebuilt and the stable root recorded. -/
inductive IngestOutcome where
  | noRoot (store : Store)
  | errorCaught (store : Store)
  | loaded (store : Store)
deriving DecidableEq, Repr

/-- The store an `IngestOutcome` leaves behind. -/
def ingestStore : IngestOutcome → Store
  | .noRoot s => s
  | .errorCaught s => s
  | .loaded s => s

/-- The store-rebuilding part of `loadAndRenderTree()`: `nodeMap` and
`parentMap` are cleared up front, the fetched response (modelled as the
`response` parameter) replaces them wholesale, friendly ids are assigned in
response order, and the first element's id becomes `stableRootId`. -/
def loadAndRenderTreeIngest (prev : Store) (response : List Node) : IngestOutcome :=
  let s0 : Store := { prev with nodeMap := [], parentMap := [] }
  match response with
  | [] => .noRoot s0
  | first :: _ =>
    let nm := buildNodeMap response
    let s1 : Store := { s0 with nodeMap := assignFriendlyIds nm response,
                                parentMap := buildParentMap response nm }
    if first.contentId = "" then .errorCaught s1
    else .loaded { s1 with stableRootId := some first.contentId }

/-! ### Local mutations (`handleEditSubmit` lines 394-422, `deleteNode` lines 426-456) -/

/-- Result of a JS expression that can throw: either the value or the thrown
error's message. -/
inductive JsOutcome (α : Type) where
  | ok (v : α)
  | thrown (msg : String)
deriving DecidableEq, Repr

/-- The local cache update of `handleEditSubmit`:
`nodeMap[contentId].name = newName; ...`.  When `contentId` is absent,
`nodeMap[contentId]` is `undefined` and the first assignment throws a
`TypeError` (caught by the handler's `catch`, which shows an error message and
falls back to a full reload); no boolean flag is produced on either path. -/
def applyLocalEditJS (nm : List (String × Node)) (contentId newName newDescription newStatus : String) :
    JsOutcome (List (String × Node)) :=
  match nm.lookup contentId with
  | none => .thrown "TypeError: Cannot set properties of undefined"
  | some node =>
    .ok (jsSet nm contentId
      { node with name := newName, description := newDescription, status := newStatus })

/-- First half of `deleteNode`'s local update: if `parentMap[contentId]` is
truthy and resolves, filter the id out of that parent's children list. -/
def pruneFromParent (s : Store) (contentId : String) : Store :=
  match jsOrS (s.parentMap.lookup contentId) none with
  | none => s
  | some parentId =>
    match s.nodeMap.lookup parentId with
    | none => s
    | some pnode =>
      let pruned : Node :=
        { pnode with children := pnode.children.filter (fun id => id != contentId) }
      { s with nodeMap := jsSet s.nodeMap parentId pruned }

/-- The local map updates of `deleteNode` (steps after the server call):
remove the id from its recorded parent's children (guarded on the parent
resolving), then delete the id from `nodeMap` and `parentMap`.  None of these
steps can throw, and no success flag is produced. -/
def deleteNodeLocal (s : Store) (contentId : String) : Store :=
  { pruneFromParent s contentId with
    nodeMap := jsErase (pruneFromParent s contentId).nodeMap contentId,
    parentMap := jsErase (pruneFromParent s contentId).parentMap contentId }

/-! ### Filter application (`applyFilters`, flowchart.js lines 314-368) -/

/-- Whether a node matches the search queries: a name/description criterion is
applied only when the name query has at least 2 characters, a friendly-id
criterion only when the id query has at least 1 character (queries arrive
trimmed and lowercased, as in the JS). -/
def nodeMatches (nameQ idQ : String) (node : Node) : Bool :=
  (if nameQ.length ≥ 2 then
      jsIncludes (jsToLower node.name) nameQ || jsIncludes (jsToLower node.description) nameQ
    else true) &&
  (if idQ.length ≥ 1 then jsIncludes (jsToLower node.friendlyId) idQ else true)

/-- The `for (const id in nodeMap)` scan of `applyFilters`: first matching
node in insertion order, if any. -/
def findFirstMatch (s : Store) (nameQ idQ : String) : Option String :=
  (s.nodeMap.find? (fun p => nodeMatches nameQ idQ p.2)).map Prod.fst

/-- What `applyFilters` decides to do (rendering itself is separate). -/
inductive FilterAction where
  | singleNode (id : String)
  | noMatch
  | renderFull (rootId : String)
  | noNodes
deriving DecidableEq, Repr

/-- `applyFilters()`: search mode is entered when the name query has ≥ 2
characters or the id query has ≥ 1 character; it selects the first match in
iteration order (single-node display) or reports no match (`if (foundNodeId)`
is a truthiness test, so a matched empty-string id also lands in the no-match
branch).  Otherwise the normal filtered tree is rendered from
`stableRootId || Object.keys(nodeMap)[0] || null`, or an empty view shown. -/
def applyFilters (s : Store) (nameQ idQ : String) : FilterAction :=
  if nameQ.length ≥ 2 || idQ.length ≥ 1 then
    match findFirstMatch s nameQ idQ with
    | some id => if id ≠ "" then .singleNode id else .noMatch
    | none => .noMatch
  else
    match jsOrS s.stableRootId (jsOrS ((s.nodeMap.map Prod.fst).head?) none) with
    | some rootId => .renderFull rootId
    | none => .noNodes

/-! ### Retry wrapper (`fetchWithRetry`, flowchart.js lines 104-129) -/

/-- `MAX_RETRIES` (line 26). -/
def MAX_RETRIES : Nat := 5

/-- Observable outcome of a `fetchWithRetry` call chain: the final result (a
parsed response or the rethrown error), the backoff delays slept in order,
whether the fatal message was shown and the redirect to `index.html`
scheduled, and the global `retryCount` left behind. -/
structure RetryOutcome (α : Type) where
  result : JsOutcome α
  delays : List Nat
  fatalMessage : Bool
  redirectScheduled : Bool
  finalRetryCount : Nat
deriving DecidableEq, Repr

/-- The recursion of `fetchWithRetry`, with the network as an oracle giving
the outcome of each attempt (`net k` is attempt `k`).  On success the global
`retryCount` resets to 0; on failure, while `retryCount < MAX_RETRIES`, it is
incremented and the call retries after `2 ^ retryCount * 100` ms; once the
ceiling is reached the fatal message is shown, the redirect scheduled, and the
error rethrown.  The structural `budget` equals `MAX_RETRIES - retryCount`,
which bounds the recursion depth exactly as the JS guard does. -/
def fetchGo {α : Type} (net : Nat → JsOutcome α) : Nat → Nat → Nat → RetryOutcome α
  | 0, retryCount, attempt =>
    match net attempt with
    | .ok v =>
      { result := .ok v, delays := [], fatalMessage := false,
        redirectScheduled := false, finalRetryCount := 0 }
    | .thrown e =>
      if retryCount < MAX_RETRIES then
        { result := .thrown e, delays := [], fatalMessage := false,
          redirectScheduled := false, finalRetryCount := retryCount }
      else
        { result := .thrown e, delays := [], fatalMessage := true,
          redirectScheduled := true, finalRetryCount := retryCount }
  | b + 1, retryCount, attempt =>
    match net attempt with
    | .ok v =>
      { result := .ok v, delays := [], fatalMessage := false,
        redirectScheduled := false, finalRetryCount := 0 }
    | .thrown e =>
      if retryCount < MAX_RETRIES then
        let rc := retryCount + 1
        let rest := fetchGo net b rc (attempt + 1)
        { rest with delays := 2 ^ rc * 100 :: rest.delays }
      else
        { result := .thrown e, delays := [], fatalMessage := true,
          redirectScheduled := true, finalRetryCount := retryCount }

/-- `fetchWithRetry` entered with the global `retryCount` at `rc`. -/
def fetchWithRetry {α : Type} (net : Nat → JsOutcome α) (rc : Nat) : RetryOutcome α :=
  fetchGo net (MAX_RETRIES - rc) rc 0

/-! ### Breadcrumbs (`getBreadcrumbPath`, flowchart.js lines 60-71; identical
in `src/unnamed/part_000` lines 66-79) -/

/-- The guarded breadcrumb loop: while the current id is truthy, resolves, and
the guard has not reached 1000, push the name onto the end of the list (walk
order, leaf first), stop if there is no recorded parent, else hop to the
parent and increment the guard.  The fuel is `1000 - guard`, so the loop-entry
guard check is the fuel check. -/
def getBreadcrumbNames (s : Store) : Nat → String → List String → List String
  | 0, _, names => names
  | fuel + 1, currentId, names =>
    if currentId = "" then names
    else
      match s.nodeMap.lookup currentId with
      | none => names
      | some node =>
        match s.parentMap.lookup currentId with
        | none => names ++ [node.name]
        | some p =>
          if p = "" then names ++ [node.name]
          else getBreadcrumbNames s fuel p (names ++ [node.name])

/-- `getBreadcrumbPath(nodeId)`: the pushed names reversed (root first) and
joined with `" > "`, as in `names.reverse().join(' > ')`. -/
def getBreadcrumbPath (s : Store) (nodeId : String) : String :=
  String.intercalate " > " (getBreadcrumbNames s 1000 nodeId []).reverse

/-! ### The earlier renderer revision (flowchart.js lines 1605-1716)

The second copy kept in `flowchart.js` (and the near-identical revisions in
`src/unnamed/`) differs in two ways that matter here: its `isNodeVisible`
checks only the connection filter, and its `renderNode` sorts
`node.children` **in place** (`(node.children || []).sort()`, line 1631),
mutating the store during the pass.  It is modelled threading the store. -/

/-- `isNodeVisible` of the earlier revision (lines 1107-1125): connection
filter only, fail-open without stats. -/
def isNodeVisibleLegacy (s : Store) (f : Filters) (nodeId : String) : Bool :=
  match s.nodeMap.lookup nodeId with
  | none => false
  | some _ => connOk f (s.nodeStats.lookup nodeId)

/-- Children loop of the earlier `renderNode`, threading the mutated store. -/
def legacyRenderListF (rn : Store → List String → String → Store × List String) :
    Store → List String → List String → Store × List String
  | s, _, [] => (s, [])
  | s, visited, c :: rest =>
    let r1 := rn s visited c
    let r2 := legacyRenderListF rn r1.1 (r1.2.reverse ++ visited) rest
    (r2.1, r1.2 ++ r2.2)

/-- The earlier `renderNode` (lines 1605-1716): same skip rules, but
`node.children` is sorted in place before recursing, a persistent store
mutation. -/
def legacyRenderNode (f : Filters) :
    Nat → Store → List String → String → Nat → Store × List String
  | 0, s, _, _, _ => (s, [])
  | fuel + 1, s, visited, nodeId, level =>
    match s.nodeMap.lookup nodeId with
    | none => (s, [])
    | some node =>
      if !isNodeVisibleLegacy s f nodeId then (s, [])
      else if visited.contains nodeId then (s, [])
      else
        let sortedChildren := sortJS node.children
        let s1 : Store :=
          { s with nodeMap := jsSet s.nodeMap nodeId { node with children := sortedChildren } }
        if !sortedChildren.isEmpty then
          let r := legacyRenderListF
            (fun st v c => legacyRenderNode f fuel st v c (level + 1))
            s1 (nodeId :: visited) sortedChildren
          (r.1, nodeId :: r.2)
        else (s1, [nodeId])

/-- A full render pass of the earlier revision
(`loadAndRenderVisuals`, lines 1774-1809): visited set cleared, then
`renderNode(root, nodeMap, 0)`. -/
def legacyRenderPass (s : Store) (f : Filters) (rootId : String) : Store × List String :=
  legacyRenderNode f (s.nodeMap.length + 1) s [] rootId 0

/-! ### Association-list lemmas -/

theorem lookup_map_snd {α β : Type} (g : String → α → β) (m : List (String × α)) (k : String) :
    List.lookup k (m.map fun p => (p.1, g p.1 p.2)) = (List.lookup k m).map (g k) := by
  induction m with
  | nil => rfl
  | cons p t ih =>
    by_cases h : k = p.1
    · subst h; simp [List.lookup]
    · have hb : (k == p.1) = false := beq_false_of_ne h
      simp [List.lookup, hb, ih]

theorem mem_keys_of_lookup {α : Type} {m : List (String × α)} {k : String} {v : α}
    (h : List.lookup k m = some v) : k ∈ m.map Prod.fst := by
  induction m with
  | nil => simp [List.lookup] at h
  | cons p t ih =>
    by_cases hk : k = p.1
    · simp [hk]
    · have hb : (k == p.1) = false := beq_false_of_ne hk
      simp [List.lookup, hb] at h
      simp [ih h]

theorem lookup_eq_none_of_not_mem {α : Type} {m : List (String × α)} {k : String}
    (h : k ∉ m.map Prod.fst) : List.lookup k m = none := by
  induction m with
  | nil => rfl
  | cons p t ih =>
    simp only [List.map_cons, List.mem_cons] at h
    push_neg at h
    have hb : (k == p.1) = false := beq_false_of_ne h.1
    simp [List.lookup, hb, ih h.2]

theorem lookup_eq_none_iff {α : Type} (m : List (String × α)) (k : String) :
    List.lookup k m = none ↔ k ∉ m.map Prod.fst := by
  constructor
  · intro h hmem
    induction m with
    | nil => simp at hmem
    | cons p t ih =>
      simp only [List.map_cons, List.mem_cons] at hmem
      by_cases hk : k = p.1
      · have hb : (k == p.1) = true := beq_iff_eq.mpr hk
        simp [List.lookup, hb] at h
      · have hb : (k == p.1) = false := beq_false_of_ne hk
        simp only [List.lookup, hb] at h
        rcases hmem with h1 | h2
        · exact hk h1
        · exact ih h h2
  · exact lookup_eq_none_of_not_mem

theorem lookup_isSome_iff_mem {α : Type} (m : List (String × α)) (k : String) :
    (List.lookup k m).isSome = true ↔ k ∈ m.map Prod.fst := by
  cases hv : List.lookup k m with
  | none =>
    simp only [Option.isSome_none]
    constructor
    · intro h; simp at h
    · intro h; exact absurd h ((lookup_eq_none_iff m k).mp hv)
  | some v =>
    simp only [Option.isSome_some]
    constructor
    · intro _; exact mem_keys_of_lookup hv
    · intro _; trivial

theorem jsSet_of_not_mem {α : Type} {m : List (String × α)} {k : String} (v : α)
    (h : k ∉ m.map Prod.fst) : jsSet m k v = m ++ [(k, v)] := by
  have hany : m.any (fun p => decide (p.1 = k)) = false := by
    simp only [List.any_eq_false, decide_eq_true_eq]
    intro p hp he
    exact h (by simpa [← he] using List.mem_map_of_mem Prod.fst hp)
  simp [jsSet, hany]

theorem jsSet_of_mem {α : Type} {m : List (String × α)} {k : String} (v : α)
    (h : k ∈ m.map Prod.fst) : jsSet m k v = m.map fun p => if p.1 = k then (k, v) else p := by
  have hany : m.any (fun p => decide (p.1 = k)) = true := by
    simp only [List.any_eq_true, decide_eq_true_eq]
    rcases List.mem_map.mp h with ⟨p, hp, hk⟩
    exact ⟨p, hp, hk⟩
  simp [jsSet, hany]

theorem lookup_append_single {α : Type} (m : List (String × α)) (k k' : String) (v : α) :
    List.lookup k (m ++ [(k', v)]) =
      match List.lookup k m with
      | some w => some w
      | none => if k = k' then some v else none := by
  induction m with
  | nil =>
    by_cases h : k = k'
    · have hb : (k == k') = true := beq_iff_eq.mpr h
      simp [List.lookup, hb, h]
    · have hb : (k == k') = false := beq_false_of_ne h
      simp [List.lookup, hb, h]
  | cons p t ih =>
    by_cases h : k = p.1
    · have hb : (k == p.1) = true := beq_iff_eq.mpr h
      simp [List.lookup, hb]
    · have hb : (k == p.1) = false := beq_false_of_ne h
      simp [List.lookup, hb, ih]

theorem lookup_replaced {α : Type} (k' : String) (v : α) :
    ∀ (m : List (String × α)) (k : String), k' ∈ m.map Prod.fst →
      List.lookup k (m.map fun p => if p.1 = k' then (k', v) else p) =
        if k = k' then some v else List.lookup k m := by
  intro m
  induction m with
  | nil => intro k h; simp at h
  | cons p t ih =>
    intro k hmem
    simp only [List.map_cons, List.mem_cons] at hmem
    by_cases hp : p.1 = k'
    · rw [List.map_cons, if_pos hp]
      by_cases hk : k = k'
      · subst hk
        have hb : (k == k) = true := beq_iff_eq.mpr rfl
        simp [List.lookup, hb]
      · have hb1 : (k == k') = false := beq_false_of_ne hk
        have hb2 : (k == p.1) = false := beq_false_of_ne (by rw [hp]; exact hk)
        by_cases hmem2 : k' ∈ t.map Prod.fst
        · simp only [List.lookup, hb1, hb2]
          rw [ih k hmem2, if_neg hk]
        · have ht : t.map (fun q => if q.1 = k' then (k', v) else q) = t := by
            conv_rhs => rw [← List.map_id t]
            apply List.map_congr_left
            intro q hq
            have hqne : q.1 ≠ k' := fun he =>
              hmem2 (by simpa [← he] using List.mem_map_of_mem Prod.fst hq)
            simp [if_neg hqne]
          simp [List.lookup, hb1, hb2, ht, if_neg hk]
    · rw [List.map_cons, if_neg hp]
      have hmem3 : k' ∈ t.map Prod.fst := by
        rcases hmem with h1 | h2
        · exact absurd h1.symm hp
        · exact h2
      by_cases hk : k = p.1
      · have hb : (k == p.1) = true := beq_iff_eq.mpr hk
        have hkk : k ≠ k' := fun he => hp (by rw [← hk, he])
        simp [List.lookup, hb, if_neg hkk]
      · have hb : (k == p.1) = false := beq_false_of_ne hk
        simp only [List.lookup, hb]
        exact ih k hmem3

theorem lookup_jsSet {α : Type} (m : List (String × α)) (k' : String) (v : α) (k : String) :
    List.lookup k (jsSet m k' v) = if k = k' then some v else List.lookup k m := by
  by_cases hmem : k' ∈ m.map Prod.fst
  · rw [jsSet_of_mem v hmem]
    exact lookup_replaced k' v m k hmem
  · rw [jsSet_of_not_mem v hmem, lookup_append_single]
    by_cases hk : k = k'
    · subst hk
      rw [lookup_eq_none_of_not_mem hmem]
    · cases hv : List.lookup k m with
      | some w => simp [hk]
      | none => simp [hk]

theorem jsErase_of_lookup_none {α : Type} {m : List (String × α)} {k : String}
    (h : List.lookup k m = none) : jsErase m k = m := by
  apply List.filter_eq_self.mpr
  intro p hp
  have hk : k ∉ m.map Prod.fst := by
    intro hmem
    have := (lookup_isSome_iff_mem m k).mpr hmem
    rw [h] at this; simp at this
  have : p.1 ≠ k := fun he => hk (by simpa [he] using List.mem_map_of_mem Prod.fst hp)
  simp [bne_iff_ne, this]

/-! ### Sort lemmas -/

theorem insertSorted_perm (x : String) (l : List String) :
    (insertSorted x l).Perm (x :: l) := by
  induction l with
  | nil => simp [insertSorted]
  | cons y ys ih =>
    simp only [insertSorted]
    split
    · exact (List.Perm.cons y ih).trans (List.Perm.swap x y ys)
    · exact List.Perm.refl _

theorem sortJS_perm (l : List String) : (sortJS l).Perm l := by
  induction l with
  | nil => simp [sortJS]
  | cons x xs ih =>
    simp only [sortJS, List.foldr] at *
    exact (insertSorted_perm x _).trans (ih.cons x)

theorem mem_sortJS {a : String} {l : List String} : a ∈ sortJS l ↔ a ∈ l :=
  (sortJS_perm l).mem_iff

theorem sortJS_not_isEmpty_of_mem {a : String} {l : List String} (h : a ∈ l) :
    (sortJS l).isEmpty = false := by
  have : a ∈ sortJS l := mem_sortJS.mpr h
  cases hs : sortJS l with
  | nil => rw [hs] at this; simp at this
  | cons b t => simp [List.isEmpty]

/-! ### Tracking the temporary force-visible flags

The pre-render pass only ever sets `_forceVisible` flags; everything else in
the store is untouched.  `SameButFlags s s'` says `s'` agrees with `s` except
possibly on flags, and `FlagMono s s'` additionally says no flag was lost. -/

/-- A node with its force-visible flag cleared. -/
def clearNode (n : Node) : Node := { n with forceVisible := false }

/-- A node map with every force-visible flag cleared. -/
def eraseFlags (nm : List (String × Node)) : List (String × Node) :=
  nm.map fun p => (p.1, clearNode p.2)

/-- Agreement of two stores up to force-visible flags. -/
def SameButFlags (s s' : Store) : Prop :=
  s'.parentMap = s.parentMap ∧ eraseFlags s'.nodeMap = eraseFlags s.nodeMap ∧
  s'.nodeStats = s.nodeStats ∧ s'.stableRootId = s.stableRootId

/-- Agreement up to flags, with flags only gained. -/
def FlagMono (s s' : Store) : Prop :=
  SameButFlags s s' ∧
  ∀ id n n', s.nodeMap.lookup id = some n → s'.nodeMap.lookup id = some n' →
    n.forceVisible = true → n'.forceVisible = true

/-- The node at `a` carries the force-visible flag. -/
def flagged (s : Store) (a : String) : Prop :=
  ∃ n, s.nodeMap.lookup a = some n ∧ n.forceVisible = true

theorem lookup_eraseFlags (nm : List (String × Node)) (k : String) :
    List.lookup k (eraseFlags nm) = (List.lookup k nm).map clearNode :=
  lookup_map_snd (fun _ n => clearNode n) nm k

theorem clearNode_fields {a b : Node} (h : clearNode a = clearNode b) :
    a.contentId = b.contentId ∧ a.name = b.name ∧ a.description = b.description ∧
    a.status = b.status ∧ a.children = b.children ∧ a.friendlyId = b.friendlyId := by
  cases a with | mk a1 a2 a3 a4 a5 a6 a7 =>
  cases b with | mk b1 b2 b3 b4 b5 b6 b7 =>
  simp only [clearNode, Node.mk.injEq] at h
  obtain ⟨h1, h2, h3, h4, h5, h6, -⟩ := h
  exact ⟨h1, h2, h3, h4, h5, h6⟩

theorem sbf_lookup {s s' : Store} (h : SameButFlags s s') {id : String} {n : Node}
    (hn : s.nodeMap.lookup id = some n) :
    ∃ n', s'.nodeMap.lookup id = some n' ∧ clearNode n' = clearNode n := by
  have he := congrArg (List.lookup id) h.2.1
  rw [lookup_eraseFlags, lookup_eraseFlags, hn] at he
  cases hv : s'.nodeMap.lookup id with
  | none => rw [hv] at he; simp at he
  | some n' =>
    rw [hv] at he
    refine ⟨n', rfl, ?_⟩
    simpa using he

theorem sbf_lookup_isSome {s s' : Store} (h : SameButFlags s s') (id : String) :
    (s'.nodeMap.lookup id).isSome = (s.nodeMap.lookup id).isSome := by
  cases hv : s.nodeMap.lookup id with
  | some n => rcases sbf_lookup h hv with ⟨n', hn', _⟩; simp [hn']
  | none =>
    cases hv' : s'.nodeMap.lookup id with
    | none => simp
    | some n' =>
      rcases sbf_lookup ⟨h.1.symm, h.2.1.symm, h.2.2.1.symm, h.2.2.2.symm⟩ hv' with ⟨n, hn, _⟩
      rw [hv] at hn; exact absurd hn (by simp)

theorem sbf_refl (s : Store) : SameButFlags s s := ⟨rfl, rfl, rfl, rfl⟩

theorem sbf_trans {s s' s'' : Store} (h1 : SameButFlags s s') (h2 : SameButFlags s' s'') :
    SameButFlags s s'' :=
  ⟨h2.1.trans h1.1, h2.2.1.trans h1.2.1, h2.2.2.1.trans h1.2.2.1, h2.2.2.2.trans h1.2.2.2⟩

theorem flagMono_refl (s : Store) : FlagMono s s :=
  ⟨sbf_refl s, fun _ n n' h1 h2 h3 => by rw [h1] at h2; cases Option.some.inj h2; exact h3⟩

theorem flagMono_trans {s s' s'' : Store} (h1 : FlagMono s s') (h2 : FlagMono s' s'') :
    FlagMono s s'' := by
  refine ⟨sbf_trans h1.1 h2.1, ?_⟩
  intro id n n'' hn hn'' hf
  rcases sbf_lookup h1.1 hn with ⟨n', hn', _⟩
  exact h2.2 id n' n'' hn' hn'' (h1.2 id n n' hn hn' hf)

theorem flagged_mono {s s' : Store} (h : FlagMono s s') {a : String} (hf : flagged s a) :
    flagged s' a := by
  rcases hf with ⟨n, hn, hfl⟩
  rcases sbf_lookup h.1 hn with ⟨n', hn', _⟩
  exact ⟨n', hn', h.2 a n n' hn hn' hfl⟩

theorem isNodeVisible_of_flagged {s : Store} {f : Filters} {a : String} (h : flagged s a) :
    isNodeVisible s f a = true := by
  rcases h with ⟨n, hn, hfl⟩
  simp [isNodeVisible, hn, hfl]

theorem isNodeVisible_lookup_isSome {s : Store} {f : Filters} {a : String}
    (h : isNodeVisible s f a = true) : (s.nodeMap.lookup a).isSome = true := by
  unfold isNodeVisible at h
  cases hv : s.nodeMap.lookup a with
  | none => rw [hv] at h; simp at h
  | some n => simp

theorem isNodeVisible_iff (s : Store) (f : Filters) (id : String) :
    isNodeVisible s f id = true ↔
      ∃ n, s.nodeMap.lookup id = some n ∧
        (n.forceVisible = true ∨
          (connOk f (s.nodeStats.lookup id) && statusOk f n) = true) := by
  unfold isNodeVisible
  cases hv : s.nodeMap.lookup id with
  | none => simp
  | some n =>
    by_cases hf : n.forceVisible = true
    · simp [hf]
    · simp [hf]

theorem isNodeVisible_mono {s s' : Store} {f : Filters} {id : String} (h : FlagMono s s')
    (hv : isNodeVisible s f id = true) : isNodeVisible s' f id = true := by
  rw [isNodeVisible_iff] at hv ⊢
  rcases hv with ⟨n, hn, hor⟩
  rcases sbf_lookup h.1 hn with ⟨n', hn', hcl⟩
  refine ⟨n', hn', ?_⟩
  rcases hor with hfl | hrest
  · exact Or.inl (h.2 id n n' hn hn' hfl)
  · right
    rw [h.1.2.2.1]
    have hst : statusOk f n' = statusOk f n := by
      unfold statusOk
      rw [(clearNode_fields hcl).2.2.2.1]
    rw [hst]
    exact hrest

/-! ### Lemmas about the marking walk -/

theorem setForceVisible_eq_map (s : Store) (id : String) :
    (setForceVisible s id).nodeMap =
      s.nodeMap.map fun p => (p.1, if p.1 = id then setFlagTrue p.2 else p.2) := by
  show s.nodeMap.map _ = _
  apply List.map_congr_left
  intro p _
  by_cases h : p.1 = id <;> simp [h, setFlagTrue]

theorem setForceVisible_lookup (s : Store) (id k : String) :
    (setForceVisible s id).nodeMap.lookup k =
      if k = id then (s.nodeMap.lookup k).map setFlagTrue
      else s.nodeMap.lookup k := by
  rw [setForceVisible_eq_map,
    lookup_map_snd (fun q n => if q = id then setFlagTrue n else n)]
  by_cases h : k = id
  · subst h
    cases hv : s.nodeMap.lookup k with
    | none => simp
    | some n => simp
  · cases hv : s.nodeMap.lookup k with
    | none => simp [h]
    | some n => simp [h]

theorem setForceVisible_flagMono (s : Store) (id : String) :
    FlagMono s (setForceVisible s id) := by
  constructor
  · refine ⟨rfl, ?_, rfl, rfl⟩
    rw [setForceVisible_eq_map]
    unfold eraseFlags
    rw [List.map_map]
    apply List.map_congr_left
    intro p _
    by_cases h : p.1 = id <;> simp [h, clearNode, setFlagTrue]
  · intro k n n' hn hn' hf
    rw [setForceVisible_lookup] at hn'
    by_cases h : k = id
    · rw [if_pos h, hn] at hn'
      have h2 : setFlagTrue n = n' := by simpa using hn'
      rw [← h2]
      rfl
    · rw [if_neg h, hn] at hn'
      cases Option.some.inj hn'
      exact hf

theorem markParentsVisible_flagMono : ∀ (fuel : Nat) (s : Store) (id : String),
    FlagMono s (markParentsVisible fuel s id) := by
  intro fuel
  induction fuel with
  | zero => intro s id; exact flagMono_refl s
  | succ n ih =>
    intro s id
    show FlagMono s (markParentsVisible (n + 1) s id)
    unfold markParentsVisible
    cases s.parentMap.lookup id with
    | none => exact flagMono_refl s
    | some parentId =>
      by_cases hp : parentId = ""
      · simp only [if_pos hp]; exact flagMono_refl s
      · simp only [if_neg hp]
        cases s.nodeMap.lookup parentId with
        | none => exact flagMono_refl s
        | some _ =>
          exact flagMono_trans (setForceVisible_flagMono s parentId)
            (ih (setForceVisible s parentId) parentId)

/-! ### Ancestor chains recorded by the parent map -/

/-- JS truthy read of `parentMap[id]`. -/
def jsParent (s : Store) (id : String) : Option String :=
  match s.parentMap.lookup id with
  | none => none
  | some p => if p = "" then none else some p

/-- `AncChain s d ancs r`: following `parentMap` upward from `d` visits
exactly the nodes in `ancs` (each resolving in the node map) and ends at the
parentless node `r`. -/
inductive AncChain (s : Store) : String → List String → String → Prop where
  | stop (d : String) : jsParent s d = none → AncChain s d [] d
  | step (d p : String) (ancs : List String) (r : String) :
      jsParent s d = some p → (s.nodeMap.lookup p).isSome = true →
      AncChain s p ancs r → AncChain s d (p :: ancs) r

theorem jsParent_eq_some_iff {s : Store} {d p : String} :
    jsParent s d = some p ↔ s.parentMap.lookup d = some p ∧ p ≠ "" := by
  unfold jsParent
  cases hv : s.parentMap.lookup d with
  | none => simp
  | some q =>
    by_cases hq : q = ""
    · subst hq
      simp only [if_pos rfl]
      constructor
      · intro h; exact absurd h (by simp)
      · rintro ⟨h1, h2⟩; exact absurd (Option.some.inj h1).symm h2
    · simp only [if_neg hq]
      constructor
      · intro h; cases Option.some.inj h; exact ⟨rfl, hq⟩
      · rintro ⟨h1, _⟩; rw [Option.some.inj h1]

theorem ancChain_transport {s s' : Store} (h1 : s'.parentMap = s.parentMap)
    (h2 : ∀ id, (s'.nodeMap.lookup id).isSome = (s.nodeMap.lookup id).isSome) :
    ∀ {d ancs r}, AncChain s d ancs r → AncChain s' d ancs r := by
  intro d ancs r hch
  have hpar : ∀ x, jsParent s' x = jsParent s x := by
    intro x; unfold jsParent; rw [h1]
  induction hch with
  | stop d hd => exact AncChain.stop d ((hpar d).trans hd)
  | step d p ancs r hd hp _ ih =>
    exact AncChain.step d p ancs r ((hpar d).trans hd) ((h2 p).trans hp) ih

theorem ancChain_unique {s : Store} :
    ∀ {d ancs r}, AncChain s d ancs r → ∀ {ancs' r'}, AncChain s d ancs' r' →
      ancs = ancs' ∧ r = r' := by
  intro d ancs r hch
  induction hch with
  | stop d hd =>
    intro ancs' r' hch'
    cases hch' with
    | stop _ _ => exact ⟨rfl, rfl⟩
    | step _ p _ _ hd' _ _ => rw [hd] at hd'; exact absurd hd' (by simp)
  | step d p ancs r hd hp hsub ih =>
    intro ancs' r' hch'
    cases hch' with
    | stop _ hd' => rw [hd] at hd'; exact absurd hd' (by simp)
    | step _ p' ancs2 _ hd' hp' hsub' =>
      rw [hd] at hd'
      cases Option.some.inj hd'
      rcases ih hsub' with ⟨he, hr⟩
      exact ⟨by rw [he], hr⟩

theorem ancChain_shorter {s : Store} :
    ∀ {d ancs r}, AncChain s d ancs r → ∀ x ∈ ancs,
      ∃ ancs2, AncChain s x ancs2 r ∧ ancs2.length < ancs.length := by
  intro d ancs r hch
  induction hch with
  | stop _ _ => intro x hx; simp at hx
  | step d p ancs r hd hp hsub ih =>
    intro x hx
    rcases List.mem_cons.mp hx with h | h
    · subst h; exact ⟨ancs, hsub, by simp⟩
    · rcases ih x h with ⟨a2, hch2, hlt⟩
      exact ⟨a2, hch2, Nat.lt_trans hlt (by simp)⟩

theorem ancChain_nodup {s : Store} :
    ∀ {d ancs r}, AncChain s d ancs r → (d :: ancs).Nodup := by
  intro d ancs r hch
  induction hch with
  | stop d _ => simp
  | step d p ancs r hd hp hsub ih =>
    have hfull : AncChain s d (p :: ancs) r := AncChain.step d p ancs r hd hp hsub
    refine List.Nodup.cons ?_ ih
    intro hmem
    rcases ancChain_shorter hfull d hmem with ⟨a2, hch2, hlt⟩
    rcases ancChain_unique hfull hch2 with ⟨he, _⟩
    rw [← he] at hlt
    exact absurd hlt (by simp)

theorem ancChain_parents_sub {s : Store} :
    ∀ {d ancs r}, AncChain s d ancs r → ∀ x ∈ (d :: ancs).dropLast,
      x ∈ s.parentMap.map Prod.fst := by
  intro d ancs r hch
  induction hch with
  | stop d _ => intro x hx; simp at hx
  | step d p ancs r hd hp hsub ih =>
    intro x hx
    have hdl : (d :: p :: ancs).dropLast = d :: (p :: ancs).dropLast := rfl
    rw [hdl] at hx
    rcases List.mem_cons.mp hx with h | h
    · subst h
      exact mem_keys_of_lookup (jsParent_eq_some_iff.mp hd).1
    · exact ih x h

theorem ancChain_length_le {s : Store} {d : String} {ancs : List String} {r : String}
    (hch : AncChain s d ancs r) : ancs.length ≤ s.parentMap.length := by
  have hnd : ((d :: ancs).dropLast).Nodup :=
    (ancChain_nodup hch).sublist (List.dropLast_sublist _)
  have hsub : (d :: ancs).dropLast ⊆ s.parentMap.map Prod.fst := fun x hx =>
    ancChain_parents_sub hch x hx
  have hle := (List.subperm_of_subset hnd hsub).length_le
  rw [List.length_dropLast, List.length_cons, List.length_map] at hle
  simpa using hle

theorem ancChain_last_mem {s : Store} :
    ∀ {d ancs r}, AncChain s d ancs r → ancs ≠ [] → r ∈ ancs := by
  intro d ancs r hch
  induction hch with
  | stop _ _ => intro h; exact absurd rfl h
  | step d p ancs r hd hp hsub ih =>
    intro _
    cases hancs : ancs with
    | nil =>
      subst hancs
      cases hsub with
      | stop _ _ => simp
    | cons a t =>
      subst hancs
      exact List.mem_cons_of_mem p (ih (by simp))

theorem ancChain_mem_isSome {s : Store} :
    ∀ {d ancs r}, AncChain s d ancs r → ∀ a ∈ ancs, (s.nodeMap.lookup a).isSome = true := by
  intro d ancs r hch
  induction hch with
  | stop _ _ => intro a ha; simp at ha
  | step d p ancs r hd hp hsub ih =>
    intro a ha
    rcases List.mem_cons.mp ha with h | h
    · subst h; exact hp
    · exact ih a h

/-! ### The marking walk flags the whole chain -/

theorem flagged_setForceVisible {s : Store} {p : String}
    (hp : (s.nodeMap.lookup p).isSome = true) : flagged (setForceVisible s p) p := by
  cases hv : s.nodeMap.lookup p with
  | none => rw [hv] at hp; simp at hp
  | some n =>
    refine ⟨setFlagTrue n, ?_, rfl⟩
    rw [setForceVisible_lookup, if_pos rfl, hv]
    rfl

theorem markParentsVisible_succ {s : Store} {id p : String} (fuel : Nat)
    (hlk : s.parentMap.lookup id = some p) (hne : p ≠ "") {n : Node}
    (hsome : s.nodeMap.lookup p = some n) :
    markParentsVisible (fuel + 1) s id = markParentsVisible fuel (setForceVisible s p) p := by
  show (match s.parentMap.lookup id with
    | none => s
    | some parentId =>
      if parentId = "" then s
      else
        match s.nodeMap.lookup parentId with
        | none => s
        | some _ => markParentsVisible fuel (setForceVisible s parentId) parentId) =
    markParentsVisible fuel (setForceVisible s p) p
  rw [hlk]
  show (if p = "" then s
    else
      match s.nodeMap.lookup p with
      | none => s
      | some _ => markParentsVisible fuel (setForceVisible s p) p) =
    markParentsVisible fuel (setForceVisible s p) p
  rw [if_neg hne, hsome]

theorem markParentsVisible_flags_chain :
    ∀ (ancs : List String) (s : Store) (d r : String) (fuel : Nat),
      AncChain s d ancs r → ancs.length ≤ fuel →
      ∀ a ∈ ancs, flagged (markParentsVisible fuel s d) a := by
  intro ancs
  induction ancs with
  | nil => intro s d r fuel _ _ a ha; simp at ha
  | cons p t ih =>
    intro s d r fuel hch hfuel a ha
    obtain ⟨hd, hp, hsub⟩ :
        jsParent s d = some p ∧ (s.nodeMap.lookup p).isSome = true ∧ AncChain s p t r := by
      cases hch with
      | step _ _ _ _ hd2 hp2 hsub2 => exact ⟨hd2, hp2, hsub2⟩
    cases fuel with
    | zero => simp at hfuel
    | succ f =>
      have hfuel2 : t.length ≤ f := by simpa using hfuel
      rcases jsParent_eq_some_iff.mp hd with ⟨hlk, hne⟩
      obtain ⟨n, hsome⟩ : ∃ n, s.nodeMap.lookup p = some n := by
        cases hv : s.nodeMap.lookup p with
        | none => rw [hv] at hp; simp at hp
        | some n => exact ⟨n, rfl⟩
      rw [markParentsVisible_succ f hlk hne hsome]
      have hiso : ∀ id, ((setForceVisible s p).nodeMap.lookup id).isSome =
          (s.nodeMap.lookup id).isSome := by
        intro id
        rw [setForceVisible_lookup]
        by_cases h : id = p
        · subst h
          cases s.nodeMap.lookup id with
          | none => simp
          | some m => simp
        · simp [h]
      have hsub2 : AncChain (setForceVisible s p) p t r :=
        @ancChain_transport s (setForceVisible s p) rfl hiso p t r hsub
      rcases List.mem_cons.mp ha with h | h
      · rw [h]
        exact flagged_mono (markParentsVisible_flagMono f _ p)
          (flagged_setForceVisible hp)
      · exact ih (setForceVisible s p) p r f hsub2 hfuel2 a h

/-! ### The pre-pass flags every recorded ancestor of a visible node -/

theorem markAll_fold_flagMono (f : Filters) (fuel : Nat) :
    ∀ (ks : List String) (s acc : Store), FlagMono s acc →
      FlagMono s (ks.foldl (fun acc id =>
        if isNodeVisible acc f id then markParentsVisible fuel acc id else acc) acc) := by
  intro ks
  induction ks with
  | nil => intro s acc h; exact h
  | cons k t ih =>
    intro s acc h
    simp only [List.foldl_cons]
    by_cases hv : isNodeVisible acc f k = true
    · rw [if_pos hv]
      exact ih s _ (flagMono_trans h (markParentsVisible_flagMono fuel acc k))
    · rw [if_neg hv]
      exact ih s acc h

theorem markAllParentsVisible_flagMono (f : Filters) (fuel : Nat) (s : Store) :
    FlagMono s (markAllParentsVisible f fuel s) :=
  markAll_fold_flagMono f fuel (s.nodeMap.map Prod.fst) s s (flagMono_refl s)

theorem markAll_fold_flagged (f : Filters) (fuel : Nat) (s : Store) (D : String)
    (ancs : List String) (r : String)
    (hvis : isNodeVisible s f D = true) (hch : AncChain s D ancs r)
    (hfl : ancs.length ≤ fuel) :
    ∀ (ks : List String) (acc : Store), FlagMono s acc → D ∈ ks →
      ∀ a ∈ ancs, flagged (ks.foldl (fun acc id =>
        if isNodeVisible acc f id then markParentsVisible fuel acc id else acc) acc) a := by
  intro ks
  induction ks with
  | nil => intro acc _ hD; simp at hD
  | cons k t ih =>
    intro acc hacc hD a ha
    simp only [List.foldl_cons]
    rcases List.mem_cons.mp hD with hk | hk
    · rw [← hk]
      have hvacc : isNodeVisible acc f D = true := isNodeVisible_mono hacc hvis
      rw [if_pos hvacc]
      have hchacc : AncChain acc D ancs r :=
        @ancChain_transport s acc hacc.1.1 (fun id => sbf_lookup_isSome hacc.1 id) D ancs r hch
      have hflagged : flagged (markParentsVisible fuel acc D) a :=
        markParentsVisible_flags_chain ancs acc D r fuel hchacc hfl a ha
      exact flagged_mono
        (markAll_fold_flagMono f fuel t (markParentsVisible fuel acc D) _
          (flagMono_refl _)) hflagged
    · have hacc2 : FlagMono s (if isNodeVisible acc f k then markParentsVisible fuel acc k else acc) := by
        by_cases hv : isNodeVisible acc f k = true
        · rw [if_pos hv]
          exact flagMono_trans hacc (markParentsVisible_flagMono fuel acc k)
        · rw [if_neg hv]
          exact hacc
      exact ih _ hacc2 hk a ha

theorem markAllParentsVisible_flagged (f : Filters) (fuel : Nat) (s : Store) (D : String)
    (ancs : List String) (r : String)
    (hvis : isNodeVisible s f D = true) (hch : AncChain s D ancs r)
    (hfl : ancs.length ≤ fuel) :
    ∀ a ∈ ancs, flagged (markAllParentsVisible f fuel s) a := by
  have hD : D ∈ s.nodeMap.map Prod.fst := by
    have := isNodeVisible_lookup_isSome hvis
    exact (lookup_isSome_iff_mem s.nodeMap D).mp this
  exact markAll_fold_flagged f fuel s D ancs r hvis hch hfl
    (s.nodeMap.map Prod.fst) s (flagMono_refl s) hD

/-! ### Renderer lemmas: dedup, self-emission, child closure -/

/-- The key set of a store. -/
def keysF (s : Store) : Finset String := (s.nodeMap.map Prod.fst).toFinset

theorem mem_keysF_of_lookup {s : Store} {k : String} {n : Node}
    (h : s.nodeMap.lookup k = some n) : k ∈ keysF s := by
  rw [keysF, List.mem_toFinset]
  exact mem_keys_of_lookup h

theorem card_sdiff_cons {s : Store} {visited : List String} {nodeId : String}
    (hk : nodeId ∈ keysF s) (hnv : nodeId ∉ visited) :
    (keysF s \ (nodeId :: visited).toFinset).card + 1 = (keysF s \ visited.toFinset).card := by
  rw [List.toFinset_cons, Finset.sdiff_insert]
  have hmem : nodeId ∈ keysF s \ visited.toFinset :=
    Finset.mem_sdiff.mpr ⟨hk, by simpa using hnv⟩
  rw [Finset.card_erase_of_mem hmem]
  have hpos : 0 < (keysF s \ visited.toFinset).card := Finset.card_pos.mpr ⟨nodeId, hmem⟩
  omega

theorem card_sdiff_le_of_subset {s : Store} {v v' : List String} (h : v ⊆ v') :
    (keysF s \ v'.toFinset).card ≤ (keysF s \ v.toFinset).card := by
  apply Finset.card_le_card
  apply Finset.sdiff_subset_sdiff (le_refl _)
  intro a ha
  rw [List.mem_toFinset] at ha ⊢
  exact h ha

theorem renderNodeF_succ (s : Store) (f : Filters) (single : Bool) (fuel : Nat)
    (visited : List String) (nodeId : String) (level : Nat) :
    renderNodeF s f single (fuel + 1) visited nodeId level =
      match s.nodeMap.lookup nodeId with
      | none => []
      | some node =>
        if node.forceVisible = false ∧ isNodeVisible s f nodeId = false then []
        else if nodeId ∈ visited then []
        else
          nodeId ::
            (if sortJS node.children ≠ [] ∧ ¬(single = true ∧ level = 0) then
              renderListF (fun v c => renderNodeF s f single fuel v c (level + 1))
                (nodeId :: visited) (sortJS node.children)
            else []) := rfl

theorem renderNodeF_succ_none (s : Store) (f : Filters) (single : Bool) (fuel : Nat)
    (visited : List String) (nodeId : String) (level : Nat)
    (hn : s.nodeMap.lookup nodeId = none) :
    renderNodeF s f single (fuel + 1) visited nodeId level = [] := by
  rw [renderNodeF_succ, hn]

theorem renderNodeF_succ_some (s : Store) (f : Filters) (single : Bool) (fuel : Nat)
    (visited : List String) (nodeId : String) (level : Nat) {node : Node}
    (hn : s.nodeMap.lookup nodeId = some node) :
    renderNodeF s f single (fuel + 1) visited nodeId level =
      (if node.forceVisible = false ∧ isNodeVisible s f nodeId = false then []
       else if nodeId ∈ visited then []
       else
         nodeId ::
           (if sortJS node.children ≠ [] ∧ ¬(single = true ∧ level = 0) then
             renderListF (fun v c => renderNodeF s f single fuel v c (level + 1))
               (nodeId :: visited) (sortJS node.children)
           else [])) := by
  rw [renderNodeF_succ, hn]

theorem renderListF_nodup (rn : List String → String → List String)
    (h : ∀ v c, (rn v c).Nodup ∧ ∀ x ∈ rn v c, x ∉ v) :
    ∀ (l visited : List String),
      (renderListF rn visited l).Nodup ∧ ∀ x ∈ renderListF rn visited l, x ∉ visited := by
  intro l
  induction l with
  | nil => intro visited; simp [renderListF]
  | cons c rest ih =>
    intro visited
    simp only [renderListF]
    obtain ⟨hn1, hd1⟩ := h visited c
    obtain ⟨hn2, hd2⟩ := ih ((rn visited c).reverse ++ visited)
    constructor
    · rw [List.nodup_append]
      refine ⟨hn1, hn2, ?_⟩
      intro x hx1 hx2
      exact (hd2 x hx2) (by simp [hx1])
    · intro x hx
      rcases List.mem_append.mp hx with h1 | h2
      · exact hd1 x h1
      · intro hv
        exact (hd2 x h2) (by simp [hv])

theorem renderNodeF_nodup (s : Store) (f : Filters) (single : Bool) :
    ∀ (fuel : Nat) (visited : List String) (nodeId : String) (level : Nat),
      (renderNodeF s f single fuel visited nodeId level).Nodup ∧
      ∀ x ∈ renderNodeF s f single fuel visited nodeId level, x ∉ visited := by
  intro fuel
  induction fuel with
  | zero => intro visited nodeId level; simp [renderNodeF]
  | succ fuel ih =>
    intro visited nodeId level
    cases hn : s.nodeMap.lookup nodeId with
    | none => rw [renderNodeF_succ_none s f single fuel visited nodeId level hn]; simp
    | some node =>
      rw [renderNodeF_succ_some s f single fuel visited nodeId level hn]
      by_cases hg : node.forceVisible = false ∧ isNodeVisible s f nodeId = false
      · rw [if_pos hg]; simp
      · rw [if_neg hg]
        by_cases hv : nodeId ∈ visited
        · rw [if_pos hv]; simp
        · rw [if_neg hv]
          by_cases hc : sortJS node.children ≠ [] ∧ ¬(single = true ∧ level = 0)
          · rw [if_pos hc]
            obtain ⟨hn2, hd2⟩ := renderListF_nodup
              (fun v c => renderNodeF s f single fuel v c (level + 1))
              (fun v c => ih v c (level + 1)) (sortJS node.children) (nodeId :: visited)
            constructor
            · refine List.Nodup.cons ?_ hn2
              intro hmem
              exact (hd2 nodeId hmem) (by simp)
            · intro x hx
              rcases List.mem_cons.mp hx with h1 | h2
              · rw [h1]; exact hv
              · intro hxv
                exact (hd2 x h2) (by simp [hxv])
          · rw [if_neg hc]
            constructor
            · simp
            · intro x hx
              simp only [List.mem_singleton] at hx
              rw [hx]; exact hv

theorem renderNodeF_self_mem (s : Store) (f : Filters) (single : Bool) (fuel : Nat)
    (visited : List String) (n : String) (level : Nat)
    (hfuel : 1 ≤ fuel) (hvis : isNodeVisible s f n = true) (hnv : n ∉ visited) :
    n ∈ renderNodeF s f single fuel visited n level := by
  cases fuel with
  | zero => simp at hfuel
  | succ fuel =>
    obtain ⟨node, hn⟩ : ∃ node, s.nodeMap.lookup n = some node := by
      have hs := isNodeVisible_lookup_isSome hvis
      cases hv : s.nodeMap.lookup n with
      | none => rw [hv] at hs; simp at hs
      | some node => exact ⟨node, rfl⟩
    rw [renderNodeF_succ_some s f single fuel visited n level hn]
    have hg : ¬(node.forceVisible = false ∧ isNodeVisible s f n = false) := by
      intro hcontra
      rw [hcontra.2] at hvis
      exact absurd hvis (by simp)
    rw [if_neg hg, if_neg hnv]
    simp

theorem renderListF_mem_of_self (rn : List String → String → List String) (N : String)
    (hself : ∀ v, N ∉ v → N ∈ rn v N) :
    ∀ (l visited : List String), N ∈ l →
      N ∈ renderListF rn visited l ∨ N ∈ visited := by
  intro l
  induction l with
  | nil => intro visited h; simp at h
  | cons c rest ih =>
    intro visited hNl
    simp only [renderListF]
    rcases List.mem_cons.mp hNl with h | h
    · by_cases hv : N ∈ visited
      · exact Or.inr hv
      · left
        rw [← h]
        exact List.mem_append_left _ (hself visited hv)
    · rcases ih ((rn visited c).reverse ++ visited) h with h2 | h2
      · exact Or.inl (List.mem_append_right _ h2)
      · rcases List.mem_append.mp h2 with h3 | h3
        · exact Or.inl (List.mem_append_left _ (by simpa using h3))
        · exact Or.inr h3

theorem renderListF_mem_split (rn : List String → String → List String) :
    ∀ (l visited : List String) (x : String), x ∈ renderListF rn visited l →
      ∃ v c, c ∈ l ∧ x ∈ rn v c ∧
        (∀ y ∈ rn v c, y ∈ renderListF rn visited l) ∧
        visited ⊆ v ∧
        (∀ y ∈ v, y ∈ visited ∨ y ∈ renderListF rn visited l) := by
  intro l
  induction l with
  | nil => intro visited x h; simp [renderListF] at h
  | cons c rest ih =>
    intro visited x hx
    simp only [renderListF] at hx ⊢
    rcases List.mem_append.mp hx with h | h
    · exact ⟨visited, c, by simp, h,
        fun y hy => List.mem_append_left _ hy,
        fun y hy => hy,
        fun y hy => Or.inl hy⟩
    · rcases ih ((rn visited c).reverse ++ visited) x h with ⟨v, c2, hc2, hx2, hout, hvs, hvmem⟩
      refine ⟨v, c2, by simp [hc2], hx2, ?_, ?_, ?_⟩
      · intro y hy
        exact List.mem_append_right _ (hout y hy)
      · intro y hy
        exact hvs (List.mem_append_right _ hy)
      · intro y hy
        rcases hvmem y hy with h2 | h2
        · rcases List.mem_append.mp h2 with h3 | h3
          · exact Or.inr (List.mem_append_left _ (by simpa using h3))
          · exact Or.inl h3
        · exact Or.inr (List.mem_append_right _ h2)

theorem renderNodeF_child_closure (s : Store) (f : Filters) :
    ∀ (fuel : Nat) (visited : List String) (nodeId : String) (level : Nat)
      (P : String) (pn : Node) (N : String),
      (keysF s \ visited.toFinset).card + 1 ≤ fuel →
      P ∈ renderNodeF s f false fuel visited nodeId level →
      s.nodeMap.lookup P = some pn → N ∈ pn.children →
      isNodeVisible s f N = true →
      N ∈ renderNodeF s f false fuel visited nodeId level ∨ N ∈ visited := by
  intro fuel
  induction fuel with
  | zero =>
    intro visited nodeId level P pn N _ hP
    simp [renderNodeF] at hP
  | succ fuel ih =>
    intro visited nodeId level P pn N hfuel hP hpn hNch hNvis
    cases hn : s.nodeMap.lookup nodeId with
    | none =>
      rw [renderNodeF_succ_none s f false fuel visited nodeId level hn] at hP
      simp at hP
    | some node =>
      rw [renderNodeF_succ_some s f false fuel visited nodeId level hn] at hP ⊢
      by_cases hg : node.forceVisible = false ∧ isNodeVisible s f nodeId = false
      · rw [if_pos hg] at hP; simp at hP
      · rw [if_neg hg] at hP ⊢
        by_cases hvtd : nodeId ∈ visited
        · rw [if_pos hvtd] at hP; simp at hP
        · rw [if_neg hvtd] at hP ⊢
          have hkey : nodeId ∈ keysF s := mem_keysF_of_lookup hn
          have hcard := card_sdiff_cons hkey hvtd
          have hfuel1 : (keysF s \ (nodeId :: visited).toFinset).card + 1 ≤ fuel := by omega
          have hfge1 : 1 ≤ fuel := by omega
          by_cases hc : sortJS node.children ≠ [] ∧ ¬(false = true ∧ level = 0)
          · rw [if_pos hc] at hP ⊢
            by_cases hPn : P = nodeId
            · have hpn2 : pn = node := by
                rw [hPn, hn] at hpn
                exact (Option.some.inj hpn).symm
              have hNs : N ∈ sortJS node.children := mem_sortJS.mpr (hpn2 ▸ hNch)
              have hself : ∀ v, N ∉ v →
                  N ∈ (fun v c => renderNodeF s f false fuel v c (level + 1)) v N :=
                fun v hv => renderNodeF_self_mem s f false fuel v N (level + 1) hfge1 hNvis hv
              rcases renderListF_mem_of_self
                  (fun v c => renderNodeF s f false fuel v c (level + 1)) N hself
                  (sortJS node.children) (nodeId :: visited) hNs with h2 | h2
              · exact Or.inl (List.mem_cons_of_mem _ h2)
              · rcases List.mem_cons.mp h2 with h3 | h3
                · exact Or.inl (by rw [h3]; simp)
                · exact Or.inr h3
            · have hPin : P ∈ renderListF (fun v c => renderNodeF s f false fuel v c (level + 1))
                  (nodeId :: visited) (sortJS node.children) := by
                rcases List.mem_cons.mp hP with h1 | h1
                · exact absurd h1 hPn
                · exact h1
              rcases renderListF_mem_split _ _ _ _ hPin with ⟨v, c2, hc2, hx2, hout, hvs, hvmem⟩
              have hcardle := @card_sdiff_le_of_subset s (nodeId :: visited) v hvs
              have hfuelin : (keysF s \ v.toFinset).card + 1 ≤ fuel := by omega
              rcases ih v c2 (level + 1) P pn N hfuelin hx2 hpn hNch hNvis with h2 | h2
              · exact Or.inl (List.mem_cons_of_mem _ (hout N h2))
              · rcases hvmem N h2 with h3 | h3
                · rcases List.mem_cons.mp h3 with h4 | h4
                  · exact Or.inl (by rw [h4]; simp)
                  · exact Or.inr h4
                · exact Or.inl (List.mem_cons_of_mem _ h3)
          · rw [if_neg hc] at hP ⊢
            have hPeq : P = nodeId := by simpa using hP
            have hpn2 : pn = node := by
              rw [hPeq, hn] at hpn
              exact (Option.some.inj hpn).symm
            have hNs : N ∈ sortJS node.children := mem_sortJS.mpr (hpn2 ▸ hNch)
            have hne : sortJS node.children ≠ [] := by
              intro he
              rw [he] at hNs
              simp at hNs
            exact absurd ⟨hne, by simp⟩ hc

/-- A full pass is duplicate-free. -/
theorem renderPass_nodup (s : Store) (f : Filters) (single : Bool) (rootId : String) :
    (renderPass s f single rootId).Nodup :=
  (renderNodeF_nodup s f single (s.nodeMap.length + 1) [] rootId 0).1

/-- If a parent card was emitted by a full (non-single) pass, each of its
visible children is also somewhere in the pass output. -/
theorem renderPass_child_closure (s : Store) (f : Filters) (rootId P : String) (pn : Node)
    (N : String) (hP : P ∈ renderPass s f false rootId)
    (hpn : s.nodeMap.lookup P = some pn) (hNch : N ∈ pn.children)
    (hNvis : isNodeVisible s f N = true) : N ∈ renderPass s f false rootId := by
  have hcard : (keysF s \ (([] : List String)).toFinset).card + 1 ≤ s.nodeMap.length + 1 := by
    have hle := List.toFinset_card_le (s.nodeMap.map Prod.fst)
    rw [List.length_map] at hle
    simp only [List.toFinset_nil, Finset.sdiff_empty]
    rw [keysF]
    omega
  rcases renderNodeF_child_closure s f (s.nodeMap.length + 1) [] rootId 0 P pn N
      hcard hP hpn hNch hNvis with h | h
  · exact h
  · simp at h

/-! ### Descending a flagged chain through the renderer -/

theorem sbf_symm {s s' : Store} (h : SameButFlags s s') : SameButFlags s' s :=
  ⟨h.1.symm, h.2.1.symm, h.2.2.1.symm, h.2.2.2.symm⟩

theorem jsParent_congr {s s' : Store} (h : s'.parentMap = s.parentMap) (x : String) :
    jsParent s' x = jsParent s x := by
  unfold jsParent
  rw [h]

theorem ancChain_nil {t : Store} {p r : String} (h : AncChain t p [] r) : p = r := by
  cases h with
  | stop _ _ => rfl

theorem ancChain_cons {t : Store} {p b r : String} {t2 : List String}
    (h : AncChain t p (b :: t2) r) :
    jsParent t p = some b ∧ (t.nodeMap.lookup b).isSome = true ∧ AncChain t b t2 r := by
  cases h with
  | step _ _ _ _ h1 h2 h3 => exact ⟨h1, h2, h3⟩

theorem renderPass_chain_mem (t : Store) (f : Filters) (r : String)
    (hcons : ∀ c p pn, jsParent t c = some p → t.nodeMap.lookup p = some pn →
      c ∈ pn.children) :
    ∀ (d : String) (ancs : List String), AncChain t d ancs r →
      (∀ a ∈ ancs, flagged t a) → r ∈ renderPass t f false r →
      ∀ a ∈ ancs, a ∈ renderPass t f false r := by
  intro d ancs hch
  induction hch with
  | stop _ _ => intro _ _ a ha; simp at ha
  | step d p ancs r hd hp hsub ih =>
    intro hflags hroot a ha
    have hflags2 : ∀ a ∈ ancs, flagged t a := fun a ha =>
      hflags a (List.mem_cons_of_mem _ ha)
    have hpout : p ∈ renderPass t f false r := by
      cases hancs : ancs with
      | nil =>
        rw [hancs] at hsub
        rw [ancChain_nil hsub]
        exact hroot
      | cons b t2 =>
        rw [hancs] at hsub
        obtain ⟨hpar, hbs, _⟩ := ancChain_cons hsub
        obtain ⟨bn, hbn⟩ : ∃ bn, t.nodeMap.lookup b = some bn := by
          cases hv : t.nodeMap.lookup b with
          | none => rw [hv] at hbs; simp at hbs
          | some bn => exact ⟨bn, rfl⟩
        have hbout : b ∈ renderPass t f false r :=
          ih hflags2 hroot b (by rw [hancs]; simp)
        exact renderPass_child_closure t f r b bn p hbout hbn
          (hcons p b bn hpar hbn)
          (isNodeVisible_of_flagged (hflags p (by simp)))
    rcases List.mem_cons.mp ha with h | h
    · rw [h]; exact hpout
    · exact ih hflags2 hroot a h

/-! ### Unfolding a completed `loadAndRenderVisuals` pass -/

theorem loadAndRenderVisuals_rendered (s : Store) (f : Filters) (single : Bool)
    (freshStats : List (String × Stats)) (r : String) (hr : r ≠ "")
    (hres : (s.nodeMap.lookup r).isSome = true) :
    loadAndRenderVisuals s f single freshStats (some r) =
      .rendered
        (clearForceVisible
          { markAllParentsVisible f (s.parentMap.length + 1) s with nodeStats := freshStats })
        (renderPass
          { markAllParentsVisible f (s.parentMap.length + 1) s with nodeStats := freshStats }
          f single r) := by
  have hmono := markAllParentsVisible_flagMono f (s.parentMap.length + 1) s
  have hres1 : ((markAllParentsVisible f (s.parentMap.length + 1) s).nodeMap.lookup r).isSome
      = true := by
    rw [sbf_lookup_isSome hmono.1 r]
    exact hres
  obtain ⟨n1, hn1⟩ : ∃ n1,
      (markAllParentsVisible f (s.parentMap.length + 1) s).nodeMap.lookup r = some n1 := by
    cases hv : (markAllParentsVisible f (s.parentMap.length + 1) s).nodeMap.lookup r with
    | none => rw [hv] at hres1; simp at hres1
    | some n1 => exact ⟨n1, rfl⟩
  unfold loadAndRenderVisuals
  simp only [jsOrS, if_neg hr, hn1]

/-! ### Claim C1: ancestor preservation -/

theorem lookup_mem {α : Type} {m : List (String × α)} {k : String} {v : α}
    (h : List.lookup k m = some v) : (k, v) ∈ m := by
  induction m with
  | nil => simp [List.lookup] at h
  | cons p t ih =>
    by_cases hk : k = p.1
    · have hb : (k == p.1) = true := beq_iff_eq.mpr hk
      simp only [List.lookup, hb] at h
      have hv : v = p.2 := (Option.some.inj h).symm
      have he : (k, v) = p := by rw [hk, hv]
      rw [he]
      exact List.mem_cons_self _ _
    · have hb : (k == p.1) = false := beq_false_of_ne hk
      simp only [List.lookup, hb] at h
      exact List.mem_cons_of_mem _ (ih h)

/-- Decidable check that every parent-map entry is backed by the parent's
children list (an invariant the full-tree ingest establishes). -/
def parentConsistentB (s : Store) : Bool :=
  s.parentMap.all fun cp =>
    match s.nodeMap.lookup cp.2 with
    | none => true
    | some pn => decide (cp.1 ∈ pn.children)

theorem parentConsistent_of_check {s : Store} (h : parentConsistentB s = true) :
    ∀ c p pn, jsParent s c = some p → s.nodeMap.lookup p = some pn → c ∈ pn.children := by
  intro c p pn hpar hpn
  rcases jsParent_eq_some_iff.mp hpar with ⟨hlk, _⟩
  have hmem : (c, p) ∈ s.parentMap := lookup_mem hlk
  have hall := (List.all_eq_true.mp h) (c, p) hmem
  simp only at hall
  rw [hpn] at hall
  exact of_decide_eq_true hall

/-- C1: if a node D passes the visibility filter, then every ancestor of D
recorded by the parent map, up to the (parentless) root the pass renders from,
is present in the output of a full `loadAndRenderVisuals` pass — even when the
ancestor itself fails the raw connection/status filter — because the pre-pass
marks all those ancestors force-visible and a force-visible node is treated as
visible unconditionally. -/
theorem claim_C1 (s : Store) (f : Filters) (freshStats : List (String × Stats))
    (D r : String) (ancs : List String)
    (hvisD : isNodeVisible s f D = true)
    (hchain : AncChain s D ancs r)
    (hr : r ≠ "")
    (hres : (s.nodeMap.lookup r).isSome = true)
    (hcons : ∀ c p pn, jsParent s c = some p → s.nodeMap.lookup p = some pn →
      c ∈ pn.children) :
    ∀ a ∈ ancs, a ∈ visualsEmitted (loadAndRenderVisuals s f false freshStats (some r)) := by
  intro a ha
  by_cases hempty : ancs = []
  · rw [hempty] at ha; simp at ha
  · rw [loadAndRenderVisuals_rendered s f false freshStats r hr hres]
    set t : Store :=
      { markAllParentsVisible f (s.parentMap.length + 1) s with nodeStats := freshStats }
      with ht
    show a ∈ renderPass t f false r
    have hmono := markAllParentsVisible_flagMono f (s.parentMap.length + 1) s
    have hlen := ancChain_length_le hchain
    have hflags1 : ∀ b ∈ ancs, flagged (markAllParentsVisible f (s.parentMap.length + 1) s) b :=
      markAllParentsVisible_flagged f (s.parentMap.length + 1) s D ancs r hvisD hchain
        (by omega)
    have hflags2 : ∀ b ∈ ancs, flagged t b := hflags1
    have hparfix : t.parentMap = s.parentMap := hmono.1.1
    have hiso : ∀ id, (t.nodeMap.lookup id).isSome = (s.nodeMap.lookup id).isSome :=
      fun id => sbf_lookup_isSome hmono.1 id
    have hch2 : AncChain t D ancs r := @ancChain_transport s t hparfix hiso D ancs r hchain
    have hcons2 : ∀ c p pn, jsParent t c = some p → t.nodeMap.lookup p = some pn →
        c ∈ pn.children := by
      intro c p pn hpar hpn
      rw [jsParent_congr hparfix] at hpar
      have hpn1 : (markAllParentsVisible f (s.parentMap.length + 1) s).nodeMap.lookup p
          = some pn := hpn
      rcases sbf_lookup (sbf_symm hmono.1) hpn1 with ⟨pn0, hpn0, hcl⟩
      have hchl : pn0.children = pn.children := (clearNode_fields hcl).2.2.2.2.1
      have hc0 := hcons c p pn0 hpar hpn0
      rw [hchl] at hc0
      exact hc0
    have hrin : r ∈ ancs := ancChain_last_mem hchain hempty
    have hrvis : isNodeVisible t f r = true := isNodeVisible_of_flagged (hflags2 r hrin)
    have hrpass : r ∈ renderPass t f false r :=
      renderNodeF_self_mem t f false (t.nodeMap.length + 1) [] r 0 (by omega) hrvis (by simp)
    exact renderPass_chain_mem t f r hcons2 D ancs hch2 hflags2 hrpass a ha

/-- Sample node used by the concrete witness stores. -/
def sampleNode (id st : String) (ch : List String) : Node :=
  { contentId := id, name := "N" ++ id, description := "", status := st,
    children := ch, friendlyId := "", forceVisible := false }

/-- Witness store for C1: a chain r → a → d where only the leaf d passes the
status filter. -/
def storeW1 : Store :=
  { nodeMap := [("r", sampleNode "r" "New" ["a"]), ("a", sampleNode "a" "New" ["d"]),
                ("d", sampleNode "d" "Completed" [])],
    parentMap := [("a", "r"), ("d", "a")],
    nodeStats := [],
    stableRootId := some "r" }

/-- Witness filters for C1: status filter `Completed`, which node d passes and
its ancestors fail. -/
def filtersW1 : Filters := { connectionFilter := "all", statusFilter := "Completed" }

theorem claim_C1_witness :
    ("a" ∈ visualsEmitted (loadAndRenderVisuals storeW1 filtersW1 false [] (some "r"))) ∧
    ("r" ∈ visualsEmitted (loadAndRenderVisuals storeW1 filtersW1 false [] (some "r"))) := by
  have hch : AncChain storeW1 "d" ["a", "r"] "r" :=
    AncChain.step "d" "a" ["r"] "r" (by decide) (by decide)
      (AncChain.step "a" "r" [] "r" (by decide) (by decide)
        (AncChain.stop "r" (by decide)))
  have h := claim_C1 storeW1 filtersW1 [] "d" "r" ["a", "r"] (by decide) hch (by decide)
    (by decide) (parentConsistent_of_check (by decide))
  exact ⟨h "a" (by decide), h "r" (by decide)⟩

/-! ### Claim C2: cross-link deduplication -/

/-- C2: in a full render pass, a node N that appears in the children lists of
two distinct parents, is visible, and is reached by the pass (one of its
parents is rendered), is emitted exactly once — the per-pass visited set,
cleared at the start of the pass, suppresses every visit after the first. -/
theorem claim_C2 (s : Store) (f : Filters) (rootId P1 P2 N : String) (n1 n2 : Node)
    (h1 : s.nodeMap.lookup P1 = some n1) (h2 : s.nodeMap.lookup P2 = some n2)
    (hne : P1 ≠ P2) (hN1 : N ∈ n1.children) (hN2 : N ∈ n2.children)
    (hvis : isNodeVisible s f N = true)
    (hreach : P1 ∈ renderPass s f false rootId) :
    List.count N (renderPass s f false rootId) = 1 := by
  have hNin := renderPass_child_closure s f rootId P1 n1 N hreach h1 hN1 hvis
  exact List.count_eq_one_of_mem (renderPass_nodup s f false rootId) hNin

/-- Witness store for C2: node n cross-linked under both p1 and p2. -/
def storeW2 : Store :=
  { nodeMap := [("r", sampleNode "r" "New" ["p1", "p2"]),
                ("p1", sampleNode "p1" "New" ["n"]),
                ("p2", sampleNode "p2" "New" ["n"]),
                ("n", sampleNode "n" "New" [])],
    parentMap := [("p1", "r"), ("p2", "r"), ("n", "p2")],
    nodeStats := [],
    stableRootId := some "r" }

/-- Witness filters with no active criteria. -/
def filtersAll : Filters := { connectionFilter := "all", statusFilter := "all" }

theorem claim_C2_witness :
    List.count "n" (renderPass storeW2 filtersAll false "r") = 1 :=
  claim_C2 storeW2 filtersAll "r" "p1" "p2" "n"
    (sampleNode "p1" "New" ["n"]) (sampleNode "p2" "New" ["n"])
    (by decide) (by decide) (by decide) (by decide) (by decide) (by decide) (by decide)

/-! ### Claim C3: render purity (corrected) -/

theorem store_ext {a b : Store} (h1 : a.nodeMap = b.nodeMap) (h2 : a.parentMap = b.parentMap)
    (h3 : a.nodeStats = b.nodeStats) (h4 : a.stableRootId = b.stableRootId) : a = b := by
  cases a; cases b
  simp_all

theorem clearNode_eq_self {n : Node} (h : n.forceVisible = false) : clearNode n = n := by
  cases n
  simp only [clearNode]
  simp_all

theorem eraseFlags_eq_self {nm : List (String × Node)}
    (h : ∀ p ∈ nm, p.2.forceVisible = false) : eraseFlags nm = nm := by
  unfold eraseFlags
  conv_rhs => rw [← List.map_id nm]
  apply List.map_congr_left
  intro p hp
  simp [clearNode_eq_self (h p hp)]

theorem clearForceVisible_nodeMap (s : Store) :
    (clearForceVisible s).nodeMap = eraseFlags s.nodeMap := rfl

/-- C3 (amended, current renderer): a completed `loadAndRenderVisuals` pass
over a store carrying no leftover force-visible marks leaves every node —
including every children list and its order — unchanged: the pass sorts a
copy of each children list and deletes the temporary `_forceVisible` marks it
set, so the store it leaves behind is the input store with only the stats
cache replaced by the freshly fetched one. -/
theorem claim_C3 (s : Store) (f : Filters) (single : Bool)
    (freshStats : List (String × Stats)) (r : String)
    (hr : r ≠ "") (hres : (s.nodeMap.lookup r).isSome = true)
    (hflags : ∀ p ∈ s.nodeMap, p.2.forceVisible = false) :
    ∃ out, loadAndRenderVisuals s f single freshStats (some r) =
      .rendered { s with nodeStats := freshStats } out := by
  refine ⟨renderPass
    { markAllParentsVisible f (s.parentMap.length + 1) s with nodeStats := freshStats }
    f single r, ?_⟩
  rw [loadAndRenderVisuals_rendered s f single freshStats r hr hres]
  have hmono := markAllParentsVisible_flagMono f (s.parentMap.length + 1) s
  have hstore :
      clearForceVisible
        { markAllParentsVisible f (s.parentMap.length + 1) s with nodeStats := freshStats } =
      { s with nodeStats := freshStats } := by
    apply store_ext
    · rw [clearForceVisible_nodeMap]
      show eraseFlags (markAllParentsVisible f (s.parentMap.length + 1) s).nodeMap = s.nodeMap
      rw [hmono.1.2.1]
      exact eraseFlags_eq_self hflags
    · exact hmono.1.1
    · rfl
    · exact hmono.1.2.2.2
  rw [hstore]

/-- Witness/counterexample store for C3: the root's children are stored out
of order. -/
def storeW3 : Store :=
  { nodeMap := [("r", sampleNode "r" "New" ["b", "a"]),
                ("a", sampleNode "a" "New" []), ("b", sampleNode "b" "New" [])],
    parentMap := [("a", "r"), ("b", "r")],
    nodeStats := [],
    stableRootId := some "r" }

/-- C3 counterexample: the earlier renderer kept in `flowchart.js` (line 1631)
sorts `node.children` in place, so a single render pass permanently reorders
the root's children list from `["b", "a"]` to `["a", "b"]` — the pass does not
leave the store unchanged, refuting the claim as stated. -/
theorem claim_C3_counterexample :
    (legacyRenderPass storeW3 filtersAll "r").1 ≠ storeW3 ∧
    (legacyRenderPass storeW3 filtersAll "r").1.nodeMap.lookup "r" =
      some (sampleNode "r" "New" ["a", "b"]) ∧
    storeW3.nodeMap.lookup "r" = some (sampleNode "r" "New" ["b", "a"]) := by decide

theorem claim_C3_witness :
    (∀ p ∈ storeW3.nodeMap, p.2.forceVisible = false) ∧
    (∃ out, loadAndRenderVisuals storeW3 filtersAll false [] (some "r") =
      .rendered { storeW3 with nodeStats := [] } out) :=
  ⟨by decide, claim_C3 storeW3 filtersAll false [] "r" (by decide) (by decide) (by decide)⟩

/-! ### Claim C4: mutations on an unknown id (corrected) -/

theorem pruneFromParent_of_absent {s : Store} {id : String}
    (h2 : s.parentMap.lookup id = none) : pruneFromParent s id = s := by
  unfold pruneFromParent
  rw [show jsOrS (s.parentMap.lookup id) none = none from by rw [h2]; rfl]

/-- C4 (amended): on an id absent from the node store, the local edit step of
`handleEditSubmit` throws a `TypeError` (assigning a property of `undefined`),
which the handler catches — it does not return a boolean success flag; the
local delete steps of `deleteNode` on an id absent from both maps are a no-op
on the store and do not throw (and also return no flag). -/
theorem claim_C4 (s : Store) (id newName newDescription newStatus : String) :
    (s.nodeMap.lookup id = none →
      applyLocalEditJS s.nodeMap id newName newDescription newStatus =
        .thrown "TypeError: Cannot set properties of undefined") ∧
    (s.nodeMap.lookup id = none → s.parentMap.lookup id = none →
      deleteNodeLocal s id = s) := by
  constructor
  · intro h
    unfold applyLocalEditJS
    rw [h]
  · intro h1 h2
    unfold deleteNodeLocal
    rw [pruneFromParent_of_absent h2, jsErase_of_lookup_none h1, jsErase_of_lookup_none h2]

/-- Witness store for C4. -/
def storeW4 : Store :=
  { nodeMap := [("r", sampleNode "r" "New" [])],
    parentMap := [],
    nodeStats := [],
    stableRootId := some "r" }

/-- C4 counterexample: editing an id that is not in the store throws (the
thrown `TypeError` is modelled as the `thrown` result), refuting the claim
that every mutation on an unknown id reports failure through a boolean flag
without throwing. -/
theorem claim_C4_counterexample :
    applyLocalEditJS storeW4.nodeMap "ghost" "x" "y" "New" =
      .thrown "TypeError: Cannot set properties of undefined" := by decide

theorem claim_C4_witness :
    storeW4.nodeMap.lookup "ghost" = none ∧
    applyLocalEditJS storeW4.nodeMap "ghost" "x" "y" "New" =
      .thrown "TypeError: Cannot set properties of undefined" ∧
    deleteNodeLocal storeW4 "ghost" = storeW4 := by
  have h := claim_C4 storeW4 "ghost" "x" "y" "New"
  exact ⟨by decide, h.1 (by decide), h.2 (by decide) (by decide)⟩

/-! ### Claim C5: full-tree ingest postconditions (corrected) -/

theorem buildNodeMap_go (resp : List Node) :
    ∀ acc : List (String × Node),
      (acc.map Prod.fst ++ resp.map (fun n => n.contentId)).Nodup →
      resp.foldl (fun m n => jsSet m n.contentId n) acc =
        acc ++ resp.map (fun n => (n.contentId, n)) := by
  induction resp with
  | nil => intro acc _; simp
  | cons n t ih =>
    intro acc hnd
    simp only [List.foldl_cons]
    have hnd2 := hnd
    rw [List.nodup_append] at hnd2
    have hfresh : n.contentId ∉ acc.map Prod.fst := by
      intro hmem
      exact (hnd2.2.2 hmem) (by simp)
    rw [jsSet_of_not_mem n hfresh]
    have hassoc : (acc ++ [(n.contentId, n)]).map Prod.fst ++ t.map (fun n => n.contentId) =
        acc.map Prod.fst ++ (n.contentId :: t.map (fun n => n.contentId)) := by
      simp
    have hnd3 : ((acc ++ [(n.contentId, n)]).map Prod.fst ++
        t.map (fun n => n.contentId)).Nodup := by
      rw [hassoc]
      simpa using hnd
    rw [ih _ hnd3]
    simp

theorem buildNodeMap_eq (resp : List Node)
    (hnd : (resp.map (fun n => n.contentId)).Nodup) :
    buildNodeMap resp = resp.map (fun n => (n.contentId, n)) := by
  have h := buildNodeMap_go resp [] (by simpa using hnd)
  simpa [buildNodeMap] using h

theorem lookup_pairs_isSome (resp : List Node) (n : Node) (h : n ∈ resp) :
    ((resp.map (fun n => (n.contentId, n))).lookup n.contentId).isSome = true := by
  induction resp with
  | nil => simp at h
  | cons m t ih =>
    rcases List.mem_cons.mp h with h1 | h1
    · subst h1
      simp [List.lookup]
    · by_cases hc : n.contentId = m.contentId
      · have hb : (n.contentId == m.contentId) = true := beq_iff_eq.mpr hc
        simp [List.lookup, hb]
      · have hb : (n.contentId == m.contentId) = false := beq_false_of_ne hc
        simp only [List.map_cons, List.lookup, hb]
        exact ih h1

theorem lookup_pairs_of_get (resp : List Node)
    (hnd : (resp.map (fun n => n.contentId)).Nodup) :
    ∀ (i : Nat) (n : Node), resp.get? i = some n →
      (resp.map (fun m => (m.contentId, m))).lookup n.contentId = some n := by
  induction resp with
  | nil => intro i n h; simp at h
  | cons m t ih =>
    intro i n h
    cases i with
    | zero =>
      simp only [List.get?] at h
      cases Option.some.inj h
      simp [List.lookup]
    | succ j =>
      simp only [List.get?] at h
      have hmemn : n ∈ t := List.get?_mem h
      have hidmem : n.contentId ∈ t.map (fun x => x.contentId) :=
        List.mem_map_of_mem _ hmemn
      have hne : n.contentId ≠ m.contentId := by
        intro he
        rw [List.map_cons, List.nodup_cons] at hnd
        exact hnd.1 (he ▸ hidmem)
      have hb : (n.contentId == m.contentId) = false := beq_false_of_ne hne
      simp only [List.map_cons, List.lookup, hb]
      exact ih (by rw [List.map_cons, List.nodup_cons] at hnd; exact hnd.2) j n h

theorem assign_fold_untouched (resp : List Node) :
    ∀ (m : List (String × Node)) (cnt : Nat) (c : String),
      c ∉ resp.map (fun n => n.contentId) →
      ((resp.foldl assignStep (m, cnt)).1).lookup c = m.lookup c := by
  induction resp with
  | nil => intro m cnt c _; rfl
  | cons h t ih =>
    intro m cnt c hc
    simp only [List.map_cons, List.mem_cons] at hc
    push_neg at hc
    simp only [List.foldl_cons]
    cases hl : m.lookup h.contentId with
    | none =>
      rw [show assignStep (m, cnt) h = (m, cnt) from by unfold assignStep; rw [hl]]
      exact ih m cnt c hc.2
    | some node =>
      rw [show assignStep (m, cnt) h =
          (jsSet m h.contentId (setFriendly node (padStart2 cnt)), cnt + 1) from by
        unfold assignStep; rw [hl]]
      rw [ih _ _ c hc.2, lookup_jsSet, if_neg hc.1]

theorem assign_fold_lookup (resp : List Node) :
    ∀ (m : List (String × Node)) (cnt : Nat) (i : Nat) (n : Node),
      (resp.map (fun n => n.contentId)).Nodup →
      (∀ x ∈ resp, (m.lookup x.contentId).isSome = true) →
      resp.get? i = some n →
      ((resp.foldl assignStep (m, cnt)).1).lookup n.contentId =
        (m.lookup n.contentId).map (fun node => setFriendly node (padStart2 (cnt + i))) := by
  induction resp with
  | nil => intro m cnt i n _ _ h; simp at h
  | cons h t ih =>
    intro m cnt i n hnd hkeys hget
    obtain ⟨hnode, hl⟩ : ∃ node, m.lookup h.contentId = some node := by
      have hs := hkeys h (by simp)
      cases hv : m.lookup h.contentId with
      | none => rw [hv] at hs; simp at hs
      | some node => exact ⟨node, rfl⟩
    simp only [List.foldl_cons]
    rw [show assignStep (m, cnt) h =
        (jsSet m h.contentId (setFriendly hnode (padStart2 cnt)), cnt + 1) from by
      unfold assignStep; rw [hl]]
    rw [List.map_cons, List.nodup_cons] at hnd
    cases i with
    | zero =>
      simp only [List.get?] at hget
      cases Option.some.inj hget
      rw [assign_fold_untouched t _ _ h.contentId hnd.1]
      rw [lookup_jsSet, if_pos rfl, hl]
      rfl
    | succ j =>
      simp only [List.get?] at hget
      have hmemn : n ∈ t := List.get?_mem hget
      have hne : n.contentId ≠ h.contentId := by
        intro he
        exact hnd.1 (he ▸ List.mem_map_of_mem _ hmemn)
      have hkeys2 : ∀ x ∈ t, ((jsSet m h.contentId (setFriendly hnode (padStart2 cnt))).lookup
          x.contentId).isSome = true := by
        intro x hx
        rw [lookup_jsSet]
        by_cases hxc : x.contentId = h.contentId
        · rw [if_pos hxc]; rfl
        · rw [if_neg hxc]
          exact hkeys x (List.mem_cons_of_mem _ hx)
      rw [ih _ (cnt + 1) j n hnd.2 hkeys2 hget]
      rw [lookup_jsSet, if_neg hne]
      have harith : cnt + 1 + j = cnt + (j + 1) := by omega
      rw [harith]

/-- C5 (amended): ingesting a full-tree response replaces the node and parent
maps wholesale (they become functions of the response alone); when the
response is non-empty, its first element's id has to be truthy for the load to
complete, and then it becomes the stable root id while friendly ids are
assigned in list order, 1-based and zero-padded; when the response is empty
the result is the distinct "No Root Node found" view — signalled as the
`noRoot` outcome, not an exception — and no root id is assigned. -/
theorem claim_C5 (prev : Store) (resp : List Node) :
    (resp = [] → loadAndRenderTreeIngest prev resp =
      .noRoot { prev with nodeMap := [], parentMap := [] }) ∧
    (∀ first rest, resp = first :: rest → first.contentId ≠ "" →
      (resp.map (fun n => n.contentId)).Nodup →
      ∃ s, loadAndRenderTreeIngest prev resp = .loaded s ∧
        s.stableRootId = some first.contentId ∧
        s.nodeMap = assignFriendlyIds (buildNodeMap resp) resp ∧
        s.parentMap = buildParentMap resp (buildNodeMap resp) ∧
        s.nodeStats = prev.nodeStats ∧
        ∀ i n, resp.get? i = some n →
          s.nodeMap.lookup n.contentId = some (setFriendly n (padStart2 (1 + i)))) := by
  constructor
  · intro h
    subst h
    rfl
  · intro first rest hresp hfid hnd
    subst hresp
    refine ⟨{ prev with
        nodeMap := assignFriendlyIds (buildNodeMap (first :: rest)) (first :: rest),
        parentMap := buildParentMap (first :: rest) (buildNodeMap (first :: rest)),
        stableRootId := some first.contentId }, ?_, rfl, rfl, rfl, rfl, ?_⟩
    · show loadAndRenderTreeIngest prev (first :: rest) = _
      simp only [loadAndRenderTreeIngest, if_neg hfid]
    · intro i n hget
      show (assignFriendlyIds (buildNodeMap (first :: rest)) (first :: rest)).lookup n.contentId
        = some (setFriendly n (padStart2 (1 + i)))
      unfold assignFriendlyIds
      have hkeys : ∀ x ∈ first :: rest,
          ((buildNodeMap (first :: rest)).lookup x.contentId).isSome = true := by
        intro x hx
        rw [buildNodeMap_eq _ hnd]
        exact lookup_pairs_isSome _ x hx
      rw [assign_fold_lookup (first :: rest) _ 1 i n hnd hkeys hget]
      rw [buildNodeMap_eq _ hnd, lookup_pairs_of_get _ hnd i n hget]
      rfl

/-- An empty store (the state before the first load). -/
def storeEmpty : Store :=
  { nodeMap := [], parentMap := [], nodeStats := [], stableRootId := none }

/-- Discriminators for ingest outcomes. -/
def isLoaded : IngestOutcome → Bool
  | .loaded _ => true
  | _ => false

/-- Whether the ingest ended in the caught-exception error view. -/
def isErrorCaught : IngestOutcome → Bool
  | .errorCaught _ => true
  | _ => false

/-- A non-empty response whose first element has a falsy (empty) id. -/
def respW5bad : List Node := [sampleNode "" "New" []]

/-- C5 counterexample: for the non-empty response `respW5bad` the ingest does
not make the first element's id the root — `rootNodeId` is falsy, so the code
throws `'No root node found'`, which the surrounding handler catches as the
error view; no root id is assigned. -/
theorem claim_C5_counterexample :
    respW5bad ≠ [] ∧
    isLoaded (loadAndRenderTreeIngest storeEmpty respW5bad) = false ∧
    isErrorCaught (loadAndRenderTreeIngest storeEmpty respW5bad) = true ∧
    (ingestStore (loadAndRenderTreeIngest storeEmpty respW5bad)).stableRootId = none := by
  decide

/-- A well-formed two-node response. -/
def respW5 : List Node := [sampleNode "r" "New" ["a"], sampleNode "a" "New" []]

theorem claim_C5_witness :
    (loadAndRenderTreeIngest storeEmpty [] =
      .noRoot { storeEmpty with nodeMap := [], parentMap := [] }) ∧
    (∃ s, loadAndRenderTreeIngest storeEmpty respW5 = .loaded s ∧
      s.stableRootId = some (sampleNode "r" "New" ["a"]).contentId ∧
      s.nodeMap = assignFriendlyIds (buildNodeMap respW5) respW5 ∧
      s.parentMap = buildParentMap respW5 (buildNodeMap respW5) ∧
      s.nodeStats = storeEmpty.nodeStats ∧
      ∀ i n, respW5.get? i = some n →
        s.nodeMap.lookup n.contentId = some (setFriendly n (padStart2 (1 + i)))) := by
  have h := claim_C5 storeEmpty respW5
  exact ⟨(claim_C5 storeEmpty []).1 rfl,
    h.2 (sampleNode "r" "New" ["a"]) [sampleNode "a" "New" []] rfl (by decide) (by decide)⟩

/-! ### Claim C6: last-writer parent assignment (corrected) -/

theorem stepChildren_lookup (nm : List (String × Node)) (nid : String) :
    ∀ (l : List String) (pm : List (String × String)) (c : String), c ≠ "" →
      (l.foldl (fun pm childId =>
          if childId ≠ "" ∧ (nm.lookup childId).isSome = true then jsSet pm childId nid
          else pm) pm).lookup c =
        if (nm.lookup c).isSome = true ∧ c ∈ l then some nid else pm.lookup c := by
  intro l
  induction l with
  | nil => intro pm c _; simp
  | cons x t ih =>
    intro pm c hc
    simp only [List.foldl_cons]
    by_cases hcond : x ≠ "" ∧ (nm.lookup x).isSome = true
    · rw [if_pos hcond, ih _ c hc]
      by_cases hmem : (nm.lookup c).isSome = true ∧ c ∈ t
      · rw [if_pos hmem, if_pos ⟨hmem.1, List.mem_cons_of_mem _ hmem.2⟩]
      · rw [if_neg hmem, lookup_jsSet]
        by_cases hch : c = x
        · rw [if_pos hch]
          have hcx : (nm.lookup c).isSome = true := by rw [hch]; exact hcond.2
          rw [if_pos ⟨hcx, by rw [hch]; simp⟩]
        · rw [if_neg hch]
          have hnc : ¬((nm.lookup c).isSome = true ∧ c ∈ x :: t) := by
            rintro ⟨hs, hm⟩
            rcases List.mem_cons.mp hm with h1 | h1
            · exact hch h1
            · exact hmem ⟨hs, h1⟩
          rw [if_neg hnc]
    · rw [if_neg hcond, ih _ c hc]
      by_cases hmem : (nm.lookup c).isSome = true ∧ c ∈ t
      · rw [if_pos hmem, if_pos ⟨hmem.1, List.mem_cons_of_mem _ hmem.2⟩]
      · rw [if_neg hmem]
        have hnc : ¬((nm.lookup c).isSome = true ∧ c ∈ x :: t) := by
          rintro ⟨hs, hm⟩
          rcases List.mem_cons.mp hm with h1 | h1
          · exact hcond ⟨by rw [← h1]; exact hc, by rw [← h1]; exact hs⟩
          · exact hmem ⟨hs, h1⟩
        rw [if_neg hnc]

theorem lookup_buildParentMap (resp : List Node) (nm : List (String × Node)) (c : String)
    (hc : c ≠ "") :
    (buildParentMap resp nm).lookup c =
      if (nm.lookup c).isSome = true then
        ((resp.filter (fun n => decide (c ∈ n.children))).getLast?).map (fun n => n.contentId)
      else none := by
  induction resp using List.reverseRecOn with
  | nil =>
    show (List.lookup c ([] : List (String × String))) = _
    cases h : (nm.lookup c).isSome <;> simp [h]
  | append_singleton resp n ih =>
    have hsplit : buildParentMap (resp ++ [n]) nm =
        n.children.foldl (fun pm childId =>
          if childId ≠ "" ∧ (nm.lookup childId).isSome = true then jsSet pm childId n.contentId
          else pm) (buildParentMap resp nm) := by
      unfold buildParentMap
      rw [List.foldl_append]
      rfl
    rw [hsplit, stepChildren_lookup nm n.contentId n.children _ c hc, ih]
    by_cases hs : (nm.lookup c).isSome = true
    · by_cases hmem : c ∈ n.children
      · rw [if_pos ⟨hs, hmem⟩, if_pos hs, List.filter_append]
        have hfn : List.filter (fun n => decide (c ∈ n.children)) [n] = [n] := by
          simp [List.filter, hmem]
        rw [hfn, List.getLast?_concat]
        rfl
      · rw [if_neg (by rintro ⟨_, hm⟩; exact hmem hm), if_pos hs, if_pos hs, List.filter_append]
        have hfn : List.filter (fun n => decide (c ∈ n.children)) [n] = [] := by
          simp [List.filter, hmem]
        rw [hfn, List.append_nil]
    · rw [if_neg (by rintro ⟨h1, _⟩; exact hs h1), if_neg hs, if_neg hs]

/-- C6 (amended): after the ingest scan, the parent-map entry for a
*non-empty* child id C is exactly the id of the last node in scan order whose
children list contains C, provided C resolves in the node map; if C does not
resolve (or no children list contains it) no entry is recorded.  Falsy
(empty-string) child ids are skipped by the scan, so the claim's equation
fails for C equal to the empty string even when it resolves. -/
theorem claim_C6 (resp : List Node) (C : String) (hC : C ≠ "") :
    (buildParentMap resp (buildNodeMap resp)).lookup C =
      if ((buildNodeMap resp).lookup C).isSome = true then
        ((resp.filter (fun n => decide (C ∈ n.children))).getLast?).map (fun n => n.contentId)
      else none :=
  lookup_buildParentMap resp (buildNodeMap resp) C hC

/-- Response where C appears in the children of both A and B (B last). -/
def respW6 : List Node :=
  [sampleNode "A" "New" ["C"], sampleNode "B" "New" ["C"], sampleNode "C" "New" []]

/-- Response where the empty-string id appears in the children of both A and B
and resolves in the node map. -/
def respW6bad : List Node :=
  [sampleNode "A" "New" [""], sampleNode "B" "New" [""], sampleNode "" "New" []]

/-- C6 counterexample: the id `""` resolves in the node map and its last
writer in scan order is B, yet the scan records no parent entry for it (the
truthiness guard skips falsy child ids) — so the claim's equation fails at
this input. -/
theorem claim_C6_counterexample :
    ((buildNodeMap respW6bad).lookup "").isSome = true ∧
    ((respW6bad.filter (fun n => decide ("" ∈ n.children))).getLast?).map
      (fun n => n.contentId) = some "B" ∧
    (buildParentMap respW6bad (buildNodeMap respW6bad)).lookup "" = none := by
  decide

theorem claim_C6_witness :
    ((buildParentMap respW6 (buildNodeMap respW6)).lookup "C" =
      if ((buildNodeMap respW6).lookup "C").isSome = true then
        ((respW6.filter (fun n => decide ("C" ∈ n.children))).getLast?).map (fun n => n.contentId)
      else none) ∧
    (buildParentMap respW6 (buildNodeMap respW6)).lookup "C" = some "B" :=
  ⟨claim_C6 respW6 "C" (by decide), by decide⟩

/-! ### Claim C7: search-mode length thresholds (confirmed) -/

theorem find?_first {α : Type} (p : α → Bool) :
    ∀ (l₁ : List α) (a : α) (l₂ : List α),
      (∀ x ∈ l₁, p x = false) → p a = true →
      (l₁ ++ a :: l₂).find? p = some a := by
  intro l₁
  induction l₁ with
  | nil =>
    intro a l₂ _ ha
    rw [List.nil_append]
    exact List.find?_cons_of_pos _ ha
  | cons x t ih =>
    intro a l₂ h1 ha
    have hx : p x = false := h1 x (List.mem_cons_self _ _)
    rw [List.cons_append, List.find?_cons_of_neg _ (by simp [hx])]
    exact ih a l₂ (fun y hy => h1 y (List.mem_cons_of_mem _ hy)) ha

/-- C7: a one-character name/description query (with an empty friendly-id
query) triggers no search filtering — the normal filtered tree is rendered
from the resolved root — whereas a one-character friendly-id query does enter
search mode; a successful search selects the first matching node in iteration
order, and single-node rendering emits just that node's card, its children
suppressed at the top level. -/
theorem claim_C7 (s : Store) (f : Filters) :
    (∀ nameQ : String, nameQ.length = 1 → ∀ r : String,
        jsOrS s.stableRootId (jsOrS ((s.nodeMap.map Prod.fst).head?) none) = some r →
        applyFilters s nameQ "" = .renderFull r) ∧
    (∀ (nameQ idQ id : String) (node : Node) (l₁ l₂ : List (String × Node)),
        idQ.length ≥ 1 → id ≠ "" →
        s.nodeMap = l₁ ++ (id, node) :: l₂ →
        (∀ q ∈ l₁, nodeMatches nameQ idQ q.2 = false) →
        nodeMatches nameQ idQ node = true →
        applyFilters s nameQ idQ = .singleNode id) ∧
    (∀ (id : String) (node : Node),
        s.nodeMap.lookup id = some node → isNodeVisible s f id = true →
        ∀ fuel : Nat, renderNodeF s f true (fuel + 1) [] id 0 = [id]) := by
  refine ⟨?_, ?_, ?_⟩
  · intro nameQ hname r hr
    unfold applyFilters
    rw [if_neg (by simp [hname]), hr]
  · intro nameQ idQ id node l₁ l₂ hq hid0 hsplit hprev hmatch
    unfold applyFilters
    rw [if_pos (by simp only [ge_iff_le, decide_eq_true_eq, Bool.or_eq_true]; exact Or.inr hq)]
    have hfind : findFirstMatch s nameQ idQ = some id := by
      unfold findFirstMatch
      rw [hsplit, find?_first (fun p => nodeMatches nameQ idQ p.2) l₁ (id, node) l₂ hprev hmatch]
      rfl
    rw [hfind]
    exact if_pos hid0
  · intro id node hn hvis fuel
    rw [renderNodeF_succ_some s f true fuel [] id 0 hn]
    rw [if_neg (by rintro ⟨_, h2⟩; rw [hvis] at h2; cases h2)]
    rw [if_neg (List.not_mem_nil id)]
    rw [if_neg (by rintro ⟨_, h⟩; exact h ⟨rfl, rfl⟩)]

/-- Witness nodes for C7: friendly ids `01` and `02`, names in lowercase as
the queries arrive trimmed and lowercased. -/
def nodeW7a : Node :=
  { contentId := "N1", name := "alpha", description := "", status := "New",
    children := ["N2"], friendlyId := "01", forceVisible := false }

def nodeW7b : Node :=
  { contentId := "N2", name := "beta", description := "", status := "New",
    children := [], friendlyId := "02", forceVisible := false }

def storeW7 : Store :=
  { nodeMap := [("N1", nodeW7a), ("N2", nodeW7b)],
    parentMap := [("N2", "N1")],
    nodeStats := [],
    stableRootId := some "N1" }

theorem claim_C7_witness :
    applyFilters storeW7 "a" "" = .renderFull "N1" ∧
    applyFilters storeW7 "" "2" = .singleNode "N2" ∧
    renderNodeF storeW7 filtersAll true (2 + 1) [] "N2" 0 = ["N2"] :=
  ⟨(claim_C7 storeW7 filtersAll).1 "a" (by decide) "N1" (by decide),
   (claim_C7 storeW7 filtersAll).2.1 "" "2" "N2" nodeW7b [("N1", nodeW7a)] []
     (by decide) (by decide) rfl (by decide) (by decide),
   (claim_C7 storeW7 filtersAll).2.2 "N2" nodeW7b rfl (by decide) 2⟩

/-! ### Claim C8: fail-open connection filter (confirmed) -/

/-- C8: for a node that is present and not force-visible, visibility with no
cached stats entry ignores the connection filter entirely (fail-open, only the
status criterion remains); once a stats entry exists, visibility is the
conjunction of the connection and status criteria, and the connection
criterion fails under `inbound` (resp. `outbound`) exactly when the inbound
(resp. outbound) count is not greater than zero. -/
theorem claim_C8 (s : Store) (f : Filters) (id : String) (node : Node)
    (hn : s.nodeMap.lookup id = some node) (hflag : node.forceVisible = false) :
    (s.nodeStats.lookup id = none → isNodeVisible s f id = statusOk f node) ∧
    (∀ st : Stats, s.nodeStats.lookup id = some st →
      isNodeVisible s f id = (connOk f (some st) && statusOk f node) ∧
      (f.connectionFilter = "inbound" →
        (connOk f (some st) = false ↔ ¬ 0 < st.inboundCount)) ∧
      (f.connectionFilter = "outbound" →
        (connOk f (some st) = false ↔ ¬ 0 < st.outboundCount))) := by
  constructor
  · intro hst
    simp [isNodeVisible, hn, hst, hflag, connOk]
  · intro st hst
    refine ⟨by simp [isNodeVisible, hn, hst, hflag], ?_, ?_⟩
    · intro hcf
      show (if f.connectionFilter = "inbound" ∧ st.inboundCount = 0 then false
        else if f.connectionFilter = "outbound" ∧ st.outboundCount = 0 then false
        else true) = false ↔ ¬ 0 < st.inboundCount
      by_cases h0 : st.inboundCount = 0
      · rw [if_pos ⟨hcf, h0⟩]
        simp [h0]
      · rw [if_neg (by rintro ⟨_, h⟩; exact h0 h)]
        rw [if_neg (by rintro ⟨h1, _⟩; rw [hcf] at h1; exact absurd h1 (by decide))]
        simp [Nat.pos_of_ne_zero h0]
    · intro hcf
      show (if f.connectionFilter = "inbound" ∧ st.inboundCount = 0 then false
        else if f.connectionFilter = "outbound" ∧ st.outboundCount = 0 then false
        else true) = false ↔ ¬ 0 < st.outboundCount
      rw [if_neg (by rintro ⟨h1, _⟩; rw [hcf] at h1; exact absurd h1 (by decide))]
      by_cases h0 : st.outboundCount = 0
      · rw [if_pos ⟨hcf, h0⟩]
        simp [h0]
      · rw [if_neg (by rintro ⟨_, h⟩; exact h0 h)]
        simp [Nat.pos_of_ne_zero h0]

/-- Witness stats for C8: zero inbound, nonzero outbound. -/
def statsW8 : Stats := { inboundCount := 0, outboundCount := 2 }

/-- Witness store for C8: `x` has a cached stats entry, `y` has none. -/
def storeW8 : Store :=
  { nodeMap := [("x", sampleNode "x" "New" []), ("y", sampleNode "y" "New" [])],
    parentMap := [],
    nodeStats := [("x", statsW8)],
    stableRootId := some "x" }

/-- Witness filters for C8: inbound connection filter active. -/
def filtersW8 : Filters := { connectionFilter := "inbound", statusFilter := "all" }

theorem claim_C8_witness :
    (isNodeVisible storeW8 filtersW8 "y" = statusOk filtersW8 (sampleNode "y" "New" [])) ∧
    (isNodeVisible storeW8 filtersW8 "x" =
        (connOk filtersW8 (some statsW8) && statusOk filtersW8 (sampleNode "x" "New" [])) ∧
      (filtersW8.connectionFilter = "inbound" →
        (connOk filtersW8 (some statsW8) = false ↔ ¬ 0 < statsW8.inboundCount)) ∧
      (filtersW8.connectionFilter = "outbound" →
        (connOk filtersW8 (some statsW8) = false ↔ ¬ 0 < statsW8.outboundCount))) :=
  ⟨(claim_C8 storeW8 filtersW8 "y" (sampleNode "y" "New" []) (by decide) (by decide)).1
      (by decide),
   (claim_C8 storeW8 filtersW8 "x" (sampleNode "x" "New" []) (by decide) (by decide)).2
      statsW8 (by decide)⟩

/-! ### Claim C9: retry ceiling and backoff (confirmed) -/

theorem fetchGo_eq {α : Type} (net : Nat → JsOutcome α) (budget rc attempt : Nat) :
    fetchGo net budget rc attempt =
      match net attempt with
      | .ok v =>
        { result := .ok v, delays := [], fatalMessage := false,
          redirectScheduled := false, finalRetryCount := 0 }
      | .thrown e =>
        if rc < MAX_RETRIES then
          match budget with
          | 0 =>
            { result := .thrown e, delays := [], fatalMessage := false,
              redirectScheduled := false, finalRetryCount := rc }
          | b + 1 =>
            let rest := fetchGo net b (rc + 1) (attempt + 1)
            { rest with delays := 2 ^ (rc + 1) * 100 :: rest.delays }
        else
          { result := .thrown e, delays := [], fatalMessage := true,
            redirectScheduled := true, finalRetryCount := rc } := by
  cases budget <;> rfl

theorem fetchGo_ok {α : Type} (net : Nat → JsOutcome α) (budget rc attempt : Nat) {v : α}
    (h : net attempt = .ok v) :
    fetchGo net budget rc attempt =
      { result := .ok v, delays := [], fatalMessage := false,
        redirectScheduled := false, finalRetryCount := 0 } := by
  rw [fetchGo_eq, h]

theorem fetchGo_thrown_fatal {α : Type} (net : Nat → JsOutcome α) (budget rc attempt : Nat)
    {e : String} (h : net attempt = .thrown e) (hge : ¬ rc < MAX_RETRIES) :
    fetchGo net budget rc attempt =
      { result := .thrown e, delays := [], fatalMessage := true,
        redirectScheduled := true, finalRetryCount := rc } := by
  rw [fetchGo_eq, h]
  simp [hge]

theorem fetchGo_thrown_step {α : Type} (net : Nat → JsOutcome α) (b rc attempt : Nat)
    {e : String} (h : net attempt = .thrown e) (hlt : rc < MAX_RETRIES) :
    fetchGo net (b + 1) rc attempt =
      { fetchGo net b (rc + 1) (attempt + 1) with
        delays := 2 ^ (rc + 1) * 100 :: (fetchGo net b (rc + 1) (attempt + 1)).delays } := by
  rw [fetchGo_eq, h]
  simp [hlt]

theorem fetchGo_spec {α : Type} (net : Nat → JsOutcome α) :
    ∀ budget rc attempt : Nat, rc + budget = MAX_RETRIES →
      ∃ k : Nat, k ≤ budget ∧
        (fetchGo net budget rc attempt).delays =
          (List.range k).map (fun i => 2 ^ (rc + 1 + i) * 100) ∧
        (∀ e : String, (fetchGo net budget rc attempt).result = .thrown e →
          (fetchGo net budget rc attempt).fatalMessage = true ∧
          (fetchGo net budget rc attempt).redirectScheduled = true ∧
          k = budget) := by
  intro budget
  induction budget with
  | zero =>
    intro rc attempt hrc
    have h5 : MAX_RETRIES = 5 := rfl
    have hge : ¬ rc < MAX_RETRIES := by rw [h5] at hrc ⊢; omega
    cases hnet : net attempt with
    | ok v =>
      have heq := fetchGo_ok net 0 rc attempt hnet
      refine ⟨0, Nat.le_refl 0, by rw [heq]; rfl, ?_⟩
      intro e he
      rw [heq] at he
      exact JsOutcome.noConfusion he
    | thrown e0 =>
      have heq := fetchGo_thrown_fatal net 0 rc attempt hnet hge
      refine ⟨0, Nat.le_refl 0, by rw [heq]; rfl, ?_⟩
      intro e _
      exact ⟨by rw [heq], by rw [heq], rfl⟩
  | succ b ih =>
    intro rc attempt hrc
    have h5 : MAX_RETRIES = 5 := rfl
    have hlt : rc < MAX_RETRIES := by rw [h5] at hrc ⊢; omega
    cases hnet : net attempt with
    | ok v =>
      have heq := fetchGo_ok net (b + 1) rc attempt hnet
      refine ⟨0, Nat.zero_le _, by rw [heq]; rfl, ?_⟩
      intro e he
      rw [heq] at he
      exact JsOutcome.noConfusion he
    | thrown e0 =>
      obtain ⟨k', hk'le, hdel, hthr⟩ := ih (rc + 1) (attempt + 1) (by omega)
      have heq := fetchGo_thrown_step net b rc attempt hnet hlt
      refine ⟨k' + 1, by omega, ?_, ?_⟩
      · rw [heq]
        show 2 ^ (rc + 1) * 100 :: (fetchGo net b (rc + 1) (attempt + 1)).delays =
          (List.range (k' + 1)).map (fun i => 2 ^ (rc + 1 + i) * 100)
        rw [hdel, List.range_succ_eq_map, List.map_cons, List.map_map]
        congr 1
        refine List.map_congr_left (fun i _ => ?_)
        show 2 ^ (rc + 1 + 1 + i) * 100 = 2 ^ (rc + 1 + (i + 1)) * 100
        have hx : rc + 1 + 1 + i = rc + 1 + (i + 1) := by omega
        rw [hx]
      · intro e he
        rw [heq] at he
        have hrest : (fetchGo net b (rc + 1) (attempt + 1)).result = .thrown e := he
        obtain ⟨h1, h2, h3⟩ := hthr e hrest
        exact ⟨by rw [heq]; exact h1, by rw [heq]; exact h2, by omega⟩

/-- C9: a call chain entered with the global retry counter at 0 sleeps an
exponentially growing delay (`2^(i+1) * 100` ms for the i-th retry) before
each retry, retries at most `MAX_RETRIES = 5` times, and if the final result
is still a thrown error it has shown the fatal message, scheduled the redirect
to the setup view, and used the full retry budget — the error is rethrown in
the result rather than swallowed. -/
theorem claim_C9 {α : Type} (net : Nat → JsOutcome α) :
    ∃ k : Nat, k ≤ MAX_RETRIES ∧
      (fetchWithRetry net 0).delays = (List.range k).map (fun i => 2 ^ (i + 1) * 100) ∧
      (∀ e : String, (fetchWithRetry net 0).result = .thrown e →
        (fetchWithRetry net 0).fatalMessage = true ∧
        (fetchWithRetry net 0).redirectScheduled = true ∧
        k = MAX_RETRIES) := by
  obtain ⟨k, hk, hdel, hthr⟩ := fetchGo_spec net MAX_RETRIES 0 0 (Nat.zero_add _)
  have hfw : fetchWithRetry net 0 = fetchGo net MAX_RETRIES 0 0 := rfl
  refine ⟨k, hk, ?_, ?_⟩
  · rw [hfw, hdel]
    refine List.map_congr_left (fun i _ => ?_)
    have hx : 0 + 1 + i = i + 1 := by omega
    rw [hx]
  · intro e he
    rw [hfw] at he
    obtain ⟨h1, h2, h3⟩ := hthr e he
    exact ⟨by rw [hfw]; exact h1, by rw [hfw]; exact h2, h3⟩

/-- A network that is down for every attempt: the chain sleeps the five
exponential delays, shows the fatal message, schedules the redirect, and
rethrows. -/
def netDownW9 : Nat → JsOutcome Unit := fun _ => .thrown "Failed to fetch"

theorem retry_exhaustion_example :
    (fetchWithRetry netDownW9 0).delays = [200, 400, 800, 1600, 3200] ∧
    (fetchWithRetry netDownW9 0).result = .thrown "Failed to fetch" ∧
    (fetchWithRetry netDownW9 0).fatalMessage = true ∧
    (fetchWithRetry netDownW9 0).redirectScheduled = true := by
  decide

/-! ### Claim C10: breadcrumb walk termination (confirmed) -/

theorem getBreadcrumbNames_succ (s : Store) (f : Nat) (cid : String) (acc : List String) :
    getBreadcrumbNames s (f + 1) cid acc =
      if cid = "" then acc
      else
        match s.nodeMap.lookup cid with
        | none => acc
        | some node =>
          match s.parentMap.lookup cid with
          | none => acc ++ [node.name]
          | some p =>
            if p = "" then acc ++ [node.name]
            else getBreadcrumbNames s f p (acc ++ [node.name]) := rfl

theorem getBreadcrumbNames_length (s : Store) :
    ∀ (fuel : Nat) (cid : String) (acc : List String),
      (getBreadcrumbNames s fuel cid acc).length ≤ fuel + acc.length := by
  intro fuel
  induction fuel with
  | zero =>
    intro cid acc
    rw [Nat.zero_add]
    exact Nat.le_of_eq rfl
  | succ f ih =>
    intro cid acc
    rw [getBreadcrumbNames_succ]
    by_cases hc : cid = ""
    · rw [if_pos hc]
      omega
    · rw [if_neg hc]
      cases hn : s.nodeMap.lookup cid with
      | none =>
        show acc.length ≤ f + 1 + acc.length
        omega
      | some node =>
        cases hp : s.parentMap.lookup cid with
        | none =>
          show (acc ++ [node.name]).length ≤ f + 1 + acc.length
          rw [List.length_append, List.length_singleton]
          omega
        | some p =>
          show (if p = "" then acc ++ [node.name]
            else getBreadcrumbNames s f p (acc ++ [node.name])).length ≤ f + 1 + acc.length
          by_cases hp0 : p = ""
          · rw [if_pos hp0, List.length_append, List.length_singleton]
            omega
          · rw [if_neg hp0]
            have h := ih p (acc ++ [node.name])
            rw [List.length_append, List.length_singleton] at h
            omega

/-- C10: the breadcrumb walk always terminates — on any store, cyclic parent
maps included, it inspects at most 1000 parent hops (the explicit loop guard),
so it collects at most 1000 names, and the breadcrumb path is those names
joined root-first with `" > "`. -/
theorem claim_C10 (s : Store) (nodeId : String) :
    ∃ names : List String,
      getBreadcrumbNames s 1000 nodeId [] = names ∧
      names.length ≤ 1000 ∧
      getBreadcrumbPath s nodeId = String.intercalate " > " names.reverse := by
  refine ⟨getBreadcrumbNames s 1000 nodeId [], rfl, ?_, rfl⟩
  have h := getBreadcrumbNames_length s 1000 nodeId []
  simpa using h

/-- A two-node parent cycle: the guarded walk stops after exactly 1000 hops
instead of looping forever. -/
def storeCycW10 : Store :=
  { nodeMap := [("a", sampleNode "a" "New" ["b"]), ("b", sampleNode "b" "New" ["a"])],
    parentMap := [("a", "b"), ("b", "a")],
    nodeStats := [],
    stableRootId := some "a" }

theorem storeCycW10_length : ∀ (fuel : Nat) (cid : String), cid = "a" ∨ cid = "b" →
    ∀ acc : List String,
      (getBreadcrumbNames storeCycW10 fuel cid acc).length = fuel + acc.length := by
  intro fuel
  induction fuel with
  | zero =>
    intro cid _ acc
    show acc.length = 0 + acc.length
    omega
  | succ f ih =>
    intro cid hcid acc
    rcases hcid with h | h <;> subst h
    · rw [getBreadcrumbNames_succ, if_neg (by decide)]
      show (getBreadcrumbNames storeCycW10 f "b"
        (acc ++ [(sampleNode "a" "New" ["b"]).name])).length = f + 1 + acc.length
      rw [ih "b" (Or.inr rfl) (acc ++ [(sampleNode "a" "New" ["b"]).name]),
        List.length_append, List.length_singleton]
      omega
    · rw [getBreadcrumbNames_succ, if_neg (by decide)]
      show (getBreadcrumbNames storeCycW10 f "a"
        (acc ++ [(sampleNode "b" "New" ["a"]).name])).length = f + 1 + acc.length
      rw [ih "a" (Or.inl rfl) (acc ++ [(sampleNode "b" "New" ["a"]).name]),
        List.length_append, List.length_singleton]
      omega

theorem breadcrumb_cycle_example :
    (getBreadcrumbNames storeCycW10 1000 "a" []).length = 1000 :=
  storeCycW10_length 1000 "a" (Or.inl rfl) []

/-- A three-node chain leaf `l` → `m` → root `r`: the walk pushes leaf-first
and the path comes out root-first, `"Nr > Nm > Nl"`. -/
def storeChainW10 : Store :=
  { nodeMap := [("r", sampleNode "r" "New" ["m"]), ("m", sampleNode "m" "New" ["l"]),
                ("l", sampleNode "l" "New" [])],
    parentMap := [("m", "r"), ("l", "m")],
    nodeStats := [],
    stableRootId := some "r" }

theorem breadcrumb_chain_example :
    getBreadcrumbNames storeChainW10 1000 "l" [] = ["Nl", "Nm", "Nr"] ∧
    getBreadcrumbPath storeChainW10 "l" = "Nr > Nm > Nl" := by
  refine ⟨by decide, ?_⟩
  rfl

end Flowchart
